import Mathlib

/-!
Verification of the inventory-manager point-of-sale core.

The development shallowly embeds the pricing engine (`src/app.py`), the stock
ledger, batch transaction processor and live-cart publisher (`src/backend.py`).
Prices and money amounts are modelled as rationals, quantities as integers,
and the Supabase-backed stores as explicit state records threaded through each
operation.  Fallible external effects (the transaction-log insert) are driven
by an explicit oracle recorded in the state.
-/

/- ═══════════════════ Pricing Engine (src/app.py) ═══════════════════ -/

/-- `get_effective_price` from `src/app.py`: the unit price after the
percentage sale.  `if sale_percent and sale_percent > 0` collapses to the
single test `sale_percent > 0` (Python truthiness of `0` is false). -/
def get_effective_price (price : ℚ) (sale_percent : ℤ) : ℚ :=
  if sale_percent > 0 then price * (1 - (sale_percent : ℚ) / 100) else price

/-- `get_bogo_paid_qty` from `src/app.py`: units actually charged under
buy-one-get-one.  `math.ceil(qty / 2)` on a natural number is `(qty + 1) / 2`
in truncating division. -/
def get_bogo_paid_qty (qty : ℕ) (bogo : Bool) : ℕ :=
  if bogo ∧ qty ≥ 2 then (qty + 1) / 2 else qty

/-- One line of the cashier cart, as built by the POS page of `src/app.py`:
an id/name/price snapshot of the item plus the requested quantity, a note and
the promotion flags copied from the item. -/
structure CartLine where
  id : ℕ
  name : String
  price : ℚ
  qty : ℕ
  sale_percent : ℤ
  bogo : Bool
  note : String
deriving DecidableEq, Inhabited

/-- The amount one cart line contributes to the subtotal (`item_total` in the
loop of `calculate_cart_totals`). -/
def line_amount (item : CartLine) : ℚ :=
  get_effective_price item.price item.sale_percent * (get_bogo_paid_qty item.qty item.bogo : ℚ)

/-- `calculate_cart_totals` from `src/app.py`: accumulates the per-line
totals, then applies the checkout-level percentage discount. -/
def calculate_cart_totals (cart_items : List CartLine) (checkout_discount_pct : ℚ) :
    ℚ × ℚ × ℚ :=
  let subtotal := cart_items.foldl (fun acc item => acc + line_amount item) 0
  let discount_amount := subtotal * (checkout_discount_pct / 100)
  let final_total := subtotal - discount_amount
  (subtotal, discount_amount, final_total)

theorem foldl_add_line_amount (l : List CartLine) (a : ℚ) :
    l.foldl (fun acc item => acc + line_amount item) a = a + (l.map line_amount).sum := by
  induction l generalizing a with
  | nil => simp
  | cons h t ih =>
    simp only [List.foldl_cons, List.map_cons, List.sum_cons, ih]
    ring

theorem ceil_half_nat (n : ℕ) :
    (((n + 1) / 2 : ℕ) : ℤ) = ⌈(n : ℚ) / 2⌉ := by
  rcases Nat.even_or_odd n with ⟨k, hk⟩ | ⟨k, hk⟩
  · subst hk
    have h1 : ((k + k + 1) / 2 : ℕ) = k := by omega
    rw [h1]
    have h2 : ((k + k : ℕ) : ℚ) / 2 = (k : ℚ) := by push_cast; ring
    rw [h2]
    simp
  · subst hk
    have h1 : ((2 * k + 1 + 1) / 2 : ℕ) = k + 1 := by omega
    rw [h1]
    have h2 : ((2 * k + 1 : ℕ) : ℚ) / 2 = (k : ℚ) + 1 / 2 := by push_cast; ring
    rw [h2]
    symm
    rw [Int.ceil_eq_iff]
    constructor
    · push_cast
      linarith
    · push_cast
      linarith

/-- C2: for every quantity, `get_bogo_paid_qty` returns the quantity
unchanged when `bogo` is false or the quantity is below 2, and returns
`⌈qty / 2⌉` when `bogo` is true and the quantity is at least 2. -/
theorem claim_C2_payable_quantity (qty : ℕ) (bogo : Bool) :
    ((bogo = false ∨ qty < 2) → get_bogo_paid_qty qty bogo = qty) ∧
    ((bogo = true ∧ 2 ≤ qty) → (get_bogo_paid_qty qty bogo : ℤ) = ⌈(qty : ℚ) / 2⌉) := by
  constructor
  · intro h
    unfold get_bogo_paid_qty
    rcases h with h | h
    · simp [h]
    · rw [if_neg]
      rintro ⟨-, h2⟩
      omega
  · rintro ⟨hb, h2⟩
    unfold get_bogo_paid_qty
    rw [if_pos ⟨hb, h2⟩]
    exact ceil_half_nat qty

theorem claim_C2_payable_quantity_witness :
    get_bogo_paid_qty 7 false = 7 ∧ (get_bogo_paid_qty 5 true : ℤ) = ⌈(5 : ℚ) / 2⌉ :=
  ⟨(claim_C2_payable_quantity 7 false).1 (Or.inl rfl),
   (claim_C2_payable_quantity 5 true).2 ⟨rfl, by norm_num⟩⟩

/-- C3: `calculate_cart_totals` returns the subtotal (sum over the lines of
effective price times payable quantity), the checkout discount amount
`subtotal * pct / 100`, and the final total `subtotal - discount`; on the
empty cart it returns `(0, 0, 0)` for every discount. -/
theorem claim_C3_cart_totals (lines : List CartLine) (pct : ℚ) :
    calculate_cart_totals lines pct =
      ((lines.map line_amount).sum,
       (lines.map line_amount).sum * (pct / 100),
       (lines.map line_amount).sum - (lines.map line_amount).sum * (pct / 100)) ∧
    calculate_cart_totals [] pct = (0, 0, 0) := by
  constructor
  · unfold calculate_cart_totals
    rw [foldl_add_line_amount]
    norm_num
  · unfold calculate_cart_totals
    norm_num

/-- C4 counterexample: at price `0` and sale percent `50` the effective price
equals the price even though the sale percent is nonzero, refuting the claimed
"equality iff salePercent = 0" at a price satisfying `p ≥ 0`. -/
theorem claim_C4_counterexample :
    ¬ (get_effective_price 0 50 = 0 ↔ (50 : ℤ) = 0) := by
  norm_num [get_effective_price]

/-- C4 (amended): for price `p ≥ 0` and sale percent in `[0, 90]`, the
effective price is at most `p`, with equality iff the sale percent is zero or
the price itself is zero. -/
theorem claim_C4_amended_effective_price_le (p : ℚ) (s : ℤ)
    (hp : 0 ≤ p) (h0 : 0 ≤ s) (h90 : s ≤ 90) :
    get_effective_price p s ≤ p ∧ (get_effective_price p s = p ↔ (s = 0 ∨ p = 0)) := by
  unfold get_effective_price
  by_cases hs : s > 0
  · rw [if_pos hs]
    have hsq : (0 : ℚ) < (s : ℚ) := by exact_mod_cast hs
    constructor
    · nlinarith
    · constructor
      · intro heq
        right
        nlinarith
      · rintro (h | h)
        · omega
        · rw [h]; ring
  · rw [if_neg hs]
    refine ⟨le_refl p, ?_⟩
    constructor
    · intro _
      left
      omega
    · intro _
      rfl

theorem claim_C4_amended_effective_price_le_witness :
    get_effective_price 10 20 ≤ 10 ∧
      (get_effective_price 10 20 = 10 ↔ ((20 : ℤ) = 0 ∨ (10 : ℚ) = 0)) :=
  claim_C4_amended_effective_price_le 10 20 (by norm_num) (by norm_num) (by norm_num)

/- ═══════════════════ Stock Ledger (src/backend.py) ═══════════════════ -/

/-- A row of the `inventory` table (the fields the ledger core touches). -/
structure Item where
  id : ℕ
  name : String
  barcode : Option String
  quantity : ℤ
  price : ℚ
  min_threshold : ℤ
  sale_percent : ℤ
  bogo : Bool
deriving DecidableEq

/-- A row of the `transactions` table.  `receipt_id` and `payment_method` are
optional because the fallback path of `log_transaction` drops them. -/
structure Transaction where
  item_id : ℕ
  item_name : String
  type_ : String
  quantity : ℤ
  note : String
  receipt_id : Option String
  payment_method : Option String
deriving DecidableEq

/-- The backing store: the two tables plus the id/uuid supplies and the
oracle `log_ok` deciding whether the n-th insert into `transactions`
succeeds (the write-then-log sequence is not atomic; `log_ok` makes the
possible failure of the log append explicit). -/
structure DB where
  items : List Item
  transactions : List Transaction
  settings : List (String × List Char)
  next_id : ℕ
  uuid_counter : ℕ
  log_ok : ℕ → Bool
  log_calls : ℕ

/-- `log_transaction` from `src/backend.py`: tries to insert the full row;
on failure retries without the `receipt_id`/`payment_method` columns
(fallback); if that also fails, reports failure.  Each insert attempt
consumes one answer of the `log_ok` oracle. -/
def log_transaction (db : DB) (item_id : ℕ) (item_name type_ : String) (quantity : ℤ)
    (note : String) (receipt_id : Option String) (payment_method : String) :
    DB × Bool × String :=
  let ok1 := db.log_ok db.log_calls
  let db1 : DB := { db with log_calls := db.log_calls + 1 }
  if ok1 then
    ({ db1 with transactions := db1.transactions ++
        [{ item_id := item_id, item_name := item_name, type_ := type_, quantity := quantity,
           note := note, receipt_id := receipt_id, payment_method := some payment_method }] },
      true, "Logged")
  else
    let ok2 := db1.log_ok db1.log_calls
    let db2 : DB := { db1 with log_calls := db1.log_calls + 1 }
    if ok2 then
      ({ db2 with transactions := db2.transactions ++
          [{ item_id := item_id, item_name := item_name, type_ := type_, quantity := quantity,
             note := note, receipt_id := none, payment_method := none }] },
        true, "Logged (Fallback - Missing DB Column? Error: insert failed)")
    else
      (db2, false, "Log Failed: insert failed")

/-- Step 1 of `update_stock`: the plain `select quantity ... single()` read. -/
def read_quantity (db : DB) (item_id : ℕ) : Option ℤ :=
  (db.items.find? (fun it => it.id == item_id)).map (fun it => it.quantity)

/-- Step 2 of `update_stock`: the unconditional `update {quantity: new_qty}`
write on the matching row. -/
def write_quantity (db : DB) (item_id : ℕ) (q : ℤ) : DB :=
  { db with items :=
      db.items.map (fun it => if it.id == item_id then { it with quantity := q } else it) }

/-- `update_stock` from `src/backend.py`: read current quantity, reject a
negative result, otherwise write the new quantity and append the log row;
a failed log append is reported inside the success message. -/
def update_stock (db : DB) (item_id : ℕ) (item_name : String) (change_amount : ℤ)
    (transaction_type note : String) (receipt_id : Option String) (payment_method : String) :
    DB × Bool × String :=
  match read_quantity db item_id with
  | none => (db, false, "Item not found.")
  | some current_qty =>
    let new_qty := current_qty + change_amount
    if new_qty < 0 then
      (db, false, "Insufficient stock for " ++ item_name ++ ".")
    else
      let db1 := write_quantity db item_id new_qty
      let r := log_transaction db1 item_id item_name transaction_type (|change_amount|)
          note receipt_id payment_method
      let msg := "Stock updated. New Quantity: " ++ toString new_qty
      if r.2.1 then (r.1, true, msg)
      else (r.1, true, msg ++ " (⚠️ History Log Failed: " ++ r.2.2 ++ ")")

/-- `add_item` from `src/backend.py`: duplicate-name and duplicate-barcode
checks, insert of the new row (no validation of `quantity`), then the
`INITIAL_STOCK` log append whose outcome is discarded. -/
def add_item (db : DB) (name category maker supplier color : String) (barcode : Option String)
    (quantity : ℤ) (price : ℚ) (min_threshold : ℤ) (sale_percent : ℤ) (bogo : Bool) :
    DB × Bool × String :=
  let barcode := if barcode == some "" then none else barcode
  if (db.items.find? (fun it => it.name == name)).isSome then
    (db, false, "Item '" ++ name ++ "' already exists.")
  else if barcode.isSome && (db.items.find? (fun it => it.barcode == barcode)).isSome then
    (db, false, "Barcode '" ++ barcode.getD "" ++ "' already exists.")
  else
    let item : Item := { id := db.next_id, name := name, barcode := barcode,
                         quantity := quantity, price := price, min_threshold := min_threshold,
                         sale_percent := sale_percent, bogo := bogo }
    let db1 : DB := { db with items := db.items ++ [item], next_id := db.next_id + 1 }
    let r := log_transaction db1 item.id item.name "INITIAL_STOCK" quantity
        "Initial stock added" none "CASH"
    (r.1, true, "Item added successfully.")

/- ═══════════════ Batch Transaction Processor (src/backend.py) ═══════════════ -/

/-- The receipt identifier `str(uuid.uuid4())`, modelled as a fresh token
drawn from the `uuid_counter` supply of the state. -/
def fresh_uuid (n : ℕ) : String := "uuid-" ++ toString n

/-- The per-line delta of `process_batch_transaction`: negative quantity for
a SALE, positive otherwise, with the redundant RESTOCK special case kept. -/
def batch_change (transaction_type : String) (qty : ℕ) : ℤ :=
  let change : ℤ := if transaction_type == "SALE" then -(qty : ℤ) else (qty : ℤ)
  if transaction_type == "RESTOCK" then (qty : ℤ) else change

/-- The `for item in cart_items` loop of `process_batch_transaction`:
sequentially applies `update_stock` to every line, accumulating one error
string per failed line. -/
def batch_loop (db : DB) (items : List CartLine)
    (transaction_type payment_method receipt_id : String) (errors : List String) :
    DB × List String :=
  match items with
  | [] => (db, errors)
  | item :: rest =>
    let r := update_stock db item.id item.name (batch_change transaction_type item.qty)
        transaction_type item.note (some receipt_id) payment_method
    let errors1 := if r.2.1 then errors
        else errors ++ ["Failed " ++ item.name ++ ": " ++ r.2.2]
    batch_loop r.1 rest transaction_type payment_method receipt_id errors1

/-- `process_batch_transaction` from `src/backend.py`: draw one receipt
identifier, run the loop over every line, and aggregate the per-line errors
(if any) into one failure message, otherwise return the receipt. -/
def process_batch_transaction (db : DB) (cart_items : List CartLine)
    (transaction_type payment_method : String) : DB × Bool × String :=
  let receipt_id := fresh_uuid db.uuid_counter
  let db0 : DB := { db with uuid_counter := db.uuid_counter + 1 }
  let r := batch_loop db0 cart_items transaction_type payment_method receipt_id []
  if r.2.isEmpty then (r.1, true, receipt_id)
  else (r.1, false, "Some items failed: " ++ String.intercalate "; " r.2)

/- ═══════════════════ Stock Ledger theorems ═══════════════════ -/

theorem find_quantity_update (items : List Item) (item_id : ℕ) (q : ℤ)
    (h : (items.find? (fun it => it.id == item_id)).isSome = true) :
    ((items.map (fun it => if it.id == item_id then { it with quantity := q } else it)).find?
        (fun it => it.id == item_id)).map (fun it => it.quantity) = some q := by
  induction items with
  | nil => simp [List.find?] at h
  | cons a t ih =>
    cases ha : (a.id == item_id) with
    | true =>
      simp only [List.map_cons, if_pos ha, List.find?_cons]
      rw [show (({ a with quantity := q } : Item).id == item_id) = true from ha]
      rfl
    | false =>
      rw [List.find?_cons] at h
      rw [ha] at h
      simp only [List.map_cons, List.find?_cons, ha, Bool.false_eq_true, if_false]
      exact ih h

theorem read_quantity_write_quantity (db : DB) (item_id : ℕ) (q : ℤ) (cur : ℤ)
    (h : read_quantity db item_id = some cur) :
    read_quantity (write_quantity db item_id q) item_id = some q := by
  unfold read_quantity at h ⊢
  unfold write_quantity
  apply find_quantity_update
  cases hf : db.items.find? (fun it => it.id == item_id) with
  | none => rw [hf] at h; simp at h
  | some it => simp

/-- C1: when the current quantity plus the signed delta would be negative,
`update_stock` fails with the insufficient-stock message carrying the item
name, and returns the store unchanged: the quantity is untouched and no
Transaction row is written. -/
theorem claim_C1_insufficient_stock (db : DB) (item_id : ℕ) (item_name : String)
    (delta : ℤ) (ty note : String) (receipt : Option String) (pm : String) (current : ℤ)
    (hread : read_quantity db item_id = some current) (hneg : current + delta < 0) :
    update_stock db item_id item_name delta ty note receipt pm
      = (db, false, "Insufficient stock for " ++ item_name ++ ".") := by
  unfold update_stock
  rw [hread]
  simp only [if_pos hneg]

def db_c1 : DB :=
  { items := [{ id := 1, name := "Widget", barcode := none, quantity := 2, price := 10,
                min_threshold := 1, sale_percent := 0, bogo := false }],
    transactions := [], settings := [], next_id := 2, uuid_counter := 0,
    log_ok := fun _ => true, log_calls := 0 }

theorem claim_C1_insufficient_stock_witness :
    update_stock db_c1 1 "Widget" (-5) "SALE" "" none "CASH"
      = (db_c1, false, "Insufficient stock for Widget.") :=
  claim_C1_insufficient_stock db_c1 1 "Widget" (-5) "SALE" "" none "CASH" 2 rfl (by norm_num)

/-- C8: when the quantity write succeeds but both transaction-log insert
attempts fail, `update_stock` still returns success for the stock mutation
(the new quantity is stored), appends no log row, and surfaces the log
failure as a warning inside the returned message. -/
theorem claim_C8_log_failure_warning (db : DB) (item_id : ℕ) (item_name : String)
    (delta : ℤ) (ty note : String) (receipt : Option String) (pm : String) (current : ℤ)
    (hread : read_quantity db item_id = some current) (hpos : 0 ≤ current + delta)
    (h1 : db.log_ok db.log_calls = false) (h2 : db.log_ok (db.log_calls + 1) = false) :
    ∃ db2, update_stock db item_id item_name delta ty note receipt pm
        = (db2, true,
           "Stock updated. New Quantity: " ++ toString (current + delta)
             ++ " (⚠️ History Log Failed: " ++ "Log Failed: insert failed" ++ ")")
      ∧ read_quantity db2 item_id = some (current + delta)
      ∧ db2.transactions = db.transactions := by
  unfold update_stock
  rw [hread]
  simp only [if_neg (not_lt.mpr hpos)]
  unfold log_transaction
  have hw1 : (write_quantity db item_id (current + delta)).log_ok = db.log_ok := rfl
  have hw2 : (write_quantity db item_id (current + delta)).log_calls = db.log_calls := rfl
  simp only [hw1, hw2, h1, h2, Bool.false_eq_true, if_false]
  refine ⟨_, rfl, ?_, rfl⟩
  exact read_quantity_write_quantity db item_id (current + delta) current hread

def db_c8 : DB :=
  { items := [{ id := 1, name := "Widget", barcode := none, quantity := 5, price := 10,
                min_threshold := 1, sale_percent := 0, bogo := false }],
    transactions := [], settings := [], next_id := 2, uuid_counter := 0,
    log_ok := fun _ => false, log_calls := 0 }

theorem claim_C8_log_failure_warning_witness :
    ∃ db2, update_stock db_c8 1 "Widget" (-3) "SALE" "" none "CASH"
        = (db2, true,
           "Stock updated. New Quantity: " ++ toString ((5 : ℤ) + (-3))
             ++ " (⚠️ History Log Failed: " ++ "Log Failed: insert failed" ++ ")")
      ∧ read_quantity db2 1 = some ((5 : ℤ) + (-3))
      ∧ db2.transactions = db_c8.transactions :=
  claim_C8_log_failure_warning db_c8 1 "Widget" (-3) "SALE" "" none "CASH" 5 rfl
    (by norm_num) rfl rfl

/- ═══════════════ Batch processor lemmas ═══════════════ -/

theorem log_transaction_state (db : DB) (item_id : ℕ) (item_name type_ : String)
    (quantity : ℤ) (note : String) (receipt_id : Option String) (payment_method : String) :
    (log_transaction db item_id item_name type_ quantity note receipt_id payment_method).1.items
        = db.items
      ∧ (log_transaction db item_id item_name type_ quantity note receipt_id payment_method).1.log_ok
        = db.log_ok
      ∧ (log_transaction db item_id item_name type_ quantity note receipt_id payment_method).1.uuid_counter
        = db.uuid_counter := by
  unfold log_transaction
  by_cases h1 : db.log_ok db.log_calls = true
  · rw [if_pos h1]
    exact ⟨rfl, rfl, rfl⟩
  · rw [if_neg h1]
    by_cases h2 : db.log_ok (db.log_calls + 1) = true
    · rw [if_pos h2]
      exact ⟨rfl, rfl, rfl⟩
    · rw [if_neg h2]
      exact ⟨rfl, rfl, rfl⟩

theorem update_stock_log_ok (db : DB) (item_id : ℕ) (item_name : String) (c : ℤ)
    (ty note : String) (r : Option String) (pm : String) :
    (update_stock db item_id item_name c ty note r pm).1.log_ok = db.log_ok := by
  unfold update_stock
  cases hr : read_quantity db item_id with
  | none => rfl
  | some cur =>
    by_cases hneg : cur + c < 0
    · simp only [if_pos hneg]
    · simp only [if_neg hneg]
      have hlog := (log_transaction_state (write_quantity db item_id (cur + c)) item_id
        item_name ty (|c|) note r pm).2.1
      by_cases hb : (log_transaction (write_quantity db item_id (cur + c)) item_id
          item_name ty (|c|) note r pm).2.1 = true
      · simp only [if_pos hb]
        exact hlog
      · simp only [if_neg hb]
        exact hlog

theorem update_stock_fail_state (db : DB) (item_id : ℕ) (item_name : String) (c : ℤ)
    (ty note : String) (r : Option String) (pm : String)
    (h : (update_stock db item_id item_name c ty note r pm).2.1 = false) :
    (update_stock db item_id item_name c ty note r pm).1 = db := by
  unfold update_stock at h ⊢
  cases hr : read_quantity db item_id with
  | none => rfl
  | some cur =>
    rw [hr] at h
    by_cases hneg : cur + c < 0
    · simp only [if_pos hneg]
    · simp only [if_neg hneg] at h
      by_cases hb : (log_transaction (write_quantity db item_id (cur + c)) item_id
          item_name ty (|c|) note r pm).2.1 = true
      · rw [if_pos hb] at h
        simp at h
      · rw [if_neg hb] at h
        simp at h

theorem update_stock_success_append (db : DB) (item_id : ℕ) (item_name : String) (c : ℤ)
    (ty note : String) (r : Option String) (pm : String)
    (hlog : db.log_ok db.log_calls = true)
    (hsucc : (update_stock db item_id item_name c ty note r pm).2.1 = true) :
    (update_stock db item_id item_name c ty note r pm).1.transactions
      = db.transactions ++
        [{ item_id := item_id, item_name := item_name, type_ := ty, quantity := |c|,
           note := note, receipt_id := r, payment_method := some pm }] := by
  unfold update_stock at hsucc ⊢
  cases hr : read_quantity db item_id with
  | none => rw [hr] at hsucc; simp at hsucc
  | some cur =>
    rw [hr] at hsucc
    by_cases hneg : cur + c < 0
    · simp only [if_pos hneg] at hsucc
      simp at hsucc
    · simp only [if_neg hneg]
      unfold log_transaction
      have hw : (write_quantity db item_id (cur + c)).log_ok = db.log_ok := rfl
      have hw2 : (write_quantity db item_id (cur + c)).log_calls = db.log_calls := rfl
      simp only [hw, hw2, hlog, if_true, ite_true]
      rfl

theorem abs_batch_change (ty : String) (q : ℕ) : |batch_change ty q| = (q : ℤ) := by
  unfold batch_change
  by_cases h1 : (ty == "RESTOCK") = true
  · rw [if_pos h1]
    exact abs_of_nonneg (Int.natCast_nonneg q)
  · rw [if_neg h1]
    by_cases h2 : (ty == "SALE") = true
    · rw [if_pos h2, abs_neg]
      exact abs_of_nonneg (Int.natCast_nonneg q)
    · rw [if_neg h2]
      exact abs_of_nonneg (Int.natCast_nonneg q)

theorem batch_loop_cons (db : DB) (a : CartLine) (t : List CartLine)
    (ty pm receipt : String) (errs : List String) :
    batch_loop db (a :: t) ty pm receipt errs
      = batch_loop (update_stock db a.id a.name (batch_change ty a.qty) ty a.note
            (some receipt) pm).1 t ty pm receipt
          (if (update_stock db a.id a.name (batch_change ty a.qty) ty a.note
              (some receipt) pm).2.1 = true then errs
           else errs ++ ["Failed " ++ a.name ++ ": "
              ++ (update_stock db a.id a.name (batch_change ty a.qty) ty a.note
                    (some receipt) pm).2.2]) := rfl

theorem batch_loop_acc (items : List CartLine) (ty pm receipt : String) :
    ∀ (db : DB) (errs : List String),
      batch_loop db items ty pm receipt errs
        = ((batch_loop db items ty pm receipt []).1,
           errs ++ (batch_loop db items ty pm receipt []).2) := by
  induction items with
  | nil =>
    intro db errs
    simp [batch_loop]
  | cons a t ih =>
    intro db errs
    rw [batch_loop_cons, batch_loop_cons db a t ty pm receipt []]
    by_cases hs : (update_stock db a.id a.name (batch_change ty a.qty) ty a.note
        (some receipt) pm).2.1 = true
    · rw [if_pos hs, if_pos hs]
      rw [ih]
    · rw [if_neg hs, if_neg hs]
      rw [ih]
      rw [ih ((update_stock db a.id a.name (batch_change ty a.qty) ty a.note
          (some receipt) pm).1) ([] ++ _)]
      simp

theorem batch_loop_success_transactions (lines : List CartLine) :
    ∀ (db : DB) (ty pm receipt : String),
      (∀ n, db.log_ok n = true) →
      (batch_loop db lines ty pm receipt []).2 = [] →
      (batch_loop db lines ty pm receipt []).1.transactions
        = db.transactions ++ lines.map (fun l =>
            ({ item_id := l.id, item_name := l.name, type_ := ty, quantity := (l.qty : ℤ),
               note := l.note, receipt_id := some receipt,
               payment_method := some pm } : Transaction)) := by
  induction lines with
  | nil =>
    intro db ty pm receipt _ _
    simp [batch_loop]
  | cons a t ih =>
    intro db ty pm receipt hlog hok
    rw [batch_loop_cons] at hok ⊢
    by_cases hs : (update_stock db a.id a.name (batch_change ty a.qty) ty a.note
        (some receipt) pm).2.1 = true
    · rw [if_pos hs] at hok ⊢
      have hlog1 : ∀ n, (update_stock db a.id a.name (batch_change ty a.qty) ty a.note
          (some receipt) pm).1.log_ok n = true := by
        intro n
        rw [update_stock_log_ok]
        exact hlog n
      rw [ih _ ty pm receipt hlog1 hok]
      rw [update_stock_success_append db a.id a.name (batch_change ty a.qty) ty a.note
        (some receipt) pm (hlog db.log_calls) hs]
      rw [abs_batch_change]
      simp
    · exfalso
      rw [if_neg hs] at hok
      rw [batch_loop_acc] at hok
      simp at hok

/-- C5: when every line of a batch succeeds, `process_batch_transaction` draws
one fresh receipt identifier, applies `update_stock` once per line
sequentially in cart order with delta `-qty` for SALE and `+qty` for RESTOCK,
appends exactly one Transaction row per line in cart order, every row carrying
that same receipt identifier, and returns success carrying the receipt. -/
theorem claim_C5_batch_success (db : DB) (lines : List CartLine) (ty pm : String)
    (hty : ty = "SALE" ∨ ty = "RESTOCK")
    (hlog : ∀ n, db.log_ok n = true)
    (hok : (batch_loop { db with uuid_counter := db.uuid_counter + 1 } lines ty pm
        (fresh_uuid db.uuid_counter) []).2 = []) :
    process_batch_transaction db lines ty pm
        = ((batch_loop { db with uuid_counter := db.uuid_counter + 1 } lines ty pm
              (fresh_uuid db.uuid_counter) []).1,
           true, fresh_uuid db.uuid_counter)
      ∧ (batch_loop { db with uuid_counter := db.uuid_counter + 1 } lines ty pm
            (fresh_uuid db.uuid_counter) []).1.transactions
          = db.transactions ++ lines.map (fun l =>
              ({ item_id := l.id, item_name := l.name, type_ := ty, quantity := (l.qty : ℤ),
                 note := l.note, receipt_id := some (fresh_uuid db.uuid_counter),
                 payment_method := some pm } : Transaction))
      ∧ (∀ l ∈ lines, batch_change ty l.qty
            = if ty = "SALE" then -(l.qty : ℤ) else (l.qty : ℤ)) := by
  refine ⟨?_, ?_, ?_⟩
  · unfold process_batch_transaction
    simp only [hok, List.isEmpty_nil, if_true, ite_true]
  · exact batch_loop_success_transactions lines { db with uuid_counter := db.uuid_counter + 1 }
      ty pm (fresh_uuid db.uuid_counter) hlog hok
  · intro l _
    rcases hty with h | h
    · subst h
      simp [batch_change]
    · subst h
      simp [batch_change]

def db_c5 : DB :=
  { items := [{ id := 1, name := "ItemA", barcode := none, quantity := 5, price := 10,
                min_threshold := 1, sale_percent := 0, bogo := false },
              { id := 2, name := "ItemB", barcode := none, quantity := 3, price := 5,
                min_threshold := 1, sale_percent := 0, bogo := false }],
    transactions := [], settings := [], next_id := 3, uuid_counter := 0,
    log_ok := fun _ => true, log_calls := 0 }

def lines_c5 : List CartLine :=
  [{ id := 1, name := "ItemA", price := 10, qty := 2, sale_percent := 0, bogo := false, note := "" },
   { id := 2, name := "ItemB", price := 5, qty := 1, sale_percent := 0, bogo := false, note := "" }]

theorem claim_C5_batch_success_witness :
    process_batch_transaction db_c5 lines_c5 "SALE" "CASH"
        = ((batch_loop { db_c5 with uuid_counter := db_c5.uuid_counter + 1 } lines_c5 "SALE"
              "CASH" (fresh_uuid db_c5.uuid_counter) []).1,
           true, fresh_uuid db_c5.uuid_counter)
      ∧ (batch_loop { db_c5 with uuid_counter := db_c5.uuid_counter + 1 } lines_c5 "SALE"
            "CASH" (fresh_uuid db_c5.uuid_counter) []).1.transactions
          = db_c5.transactions ++ lines_c5.map (fun l =>
              ({ item_id := l.id, item_name := l.name, type_ := "SALE", quantity := (l.qty : ℤ),
                 note := l.note, receipt_id := some (fresh_uuid db_c5.uuid_counter),
                 payment_method := some "CASH" } : Transaction)) :=
  ⟨(claim_C5_batch_success db_c5 lines_c5 "SALE" "CASH" (Or.inl rfl) (fun _ => rfl) rfl).1,
   (claim_C5_batch_success db_c5 lines_c5 "SALE" "CASH" (Or.inl rfl) (fun _ => rfl) rfl).2.1⟩

/-- The store state after the first `k` lines of a batch body have been
applied (the receipt has already been drawn). -/
def batch_after (db : DB) (lines : List CartLine) (ty pm receipt : String) (k : ℕ) : DB :=
  (batch_loop db (lines.take k) ty pm receipt []).1

/-- The `update_stock` call that `process_batch_transaction` makes for line
`i` of the batch body. -/
def line_call (db : DB) (lines : List CartLine) (ty pm receipt : String) (i : ℕ) :
    DB × Bool × String :=
  update_stock (batch_after db lines ty pm receipt i) (lines.getD i default).id
    (lines.getD i default).name (batch_change ty (lines.getD i default).qty) ty
    (lines.getD i default).note (some receipt) pm

theorem batch_loop_fst_irrel (items : List CartLine) (db : DB) (ty pm receipt : String)
    (errs : List String) :
    (batch_loop db items ty pm receipt errs).1 = (batch_loop db items ty pm receipt []).1 := by
  rw [batch_loop_acc]

theorem batch_after_succ_cons (db : DB) (a : CartLine) (t : List CartLine)
    (ty pm receipt : String) (k : ℕ) :
    batch_after db (a :: t) ty pm receipt (k + 1)
      = batch_after (update_stock db a.id a.name (batch_change ty a.qty) ty a.note
          (some receipt) pm).1 t ty pm receipt k := by
  unfold batch_after
  rw [List.take_succ_cons, batch_loop_cons]
  exact batch_loop_fst_irrel _ _ _ _ _ _

theorem line_call_succ_cons (db : DB) (a : CartLine) (t : List CartLine)
    (ty pm receipt : String) (k : ℕ) :
    line_call db (a :: t) ty pm receipt (k + 1)
      = line_call (update_stock db a.id a.name (batch_change ty a.qty) ty a.note
          (some receipt) pm).1 t ty pm receipt k := by
  unfold line_call
  rw [batch_after_succ_cons]
  rfl

theorem update_stock_trans_mono (db : DB) (item_id : ℕ) (item_name : String) (c : ℤ)
    (ty note : String) (r : Option String) (pm : String) :
    ∃ t, (update_stock db item_id item_name c ty note r pm).1.transactions
        = db.transactions ++ t := by
  unfold update_stock
  cases hr : read_quantity db item_id with
  | none => exact ⟨[], by simp⟩
  | some cur =>
    by_cases hneg : cur + c < 0
    · simp only [if_pos hneg]
      exact ⟨[], by simp⟩
    · simp only [if_neg hneg]
      unfold log_transaction
      by_cases h1 : db.log_ok db.log_calls = true
      · have hw : (write_quantity db item_id (cur + c)).log_ok = db.log_ok := rfl
        have hw2 : (write_quantity db item_id (cur + c)).log_calls = db.log_calls := rfl
        simp only [hw, hw2, h1, if_true, ite_true]
        exact ⟨_, rfl⟩
      · have hw : (write_quantity db item_id (cur + c)).log_ok = db.log_ok := rfl
        have hw2 : (write_quantity db item_id (cur + c)).log_calls = db.log_calls := rfl
        simp only [hw, hw2, h1, Bool.false_eq_true, if_false, ite_false]
        by_cases h2 : db.log_ok (db.log_calls + 1) = true
        · simp only [h2, if_true, ite_true]
          by_cases hb : (true = true)
          · exact ⟨_, rfl⟩
          · exact ⟨_, rfl⟩
        · simp only [h2, Bool.false_eq_true, if_false, ite_false]
          refine ⟨[], ?_⟩
          rw [List.append_nil]
          rfl

theorem batch_loop_trans_mono (items : List CartLine) :
    ∀ (db : DB) (ty pm receipt : String) (errs : List String),
      ∃ t, (batch_loop db items ty pm receipt errs).1.transactions
          = db.transactions ++ t := by
  induction items with
  | nil =>
    intro db ty pm receipt errs
    exact ⟨[], by simp [batch_loop]⟩
  | cons a t ih =>
    intro db ty pm receipt errs
    rw [batch_loop_cons]
    obtain ⟨t1, ht1⟩ := update_stock_trans_mono db a.id a.name (batch_change ty a.qty)
      ty a.note (some receipt) pm
    obtain ⟨t2, ht2⟩ := ih (update_stock db a.id a.name (batch_change ty a.qty) ty a.note
      (some receipt) pm).1 ty pm receipt
      (if (update_stock db a.id a.name (batch_change ty a.qty) ty a.note
          (some receipt) pm).2.1 = true then errs
       else errs ++ ["Failed " ++ a.name ++ ": "
          ++ (update_stock db a.id a.name (batch_change ty a.qty) ty a.note
                (some receipt) pm).2.2])
    rw [ht2, ht1]
    exact ⟨t1 ++ t2, by rw [List.append_assoc]⟩

theorem batch_loop_error_mem (lines : List CartLine) :
    ∀ (db : DB) (ty pm receipt : String) (i : ℕ), i < lines.length →
      (line_call db lines ty pm receipt i).2.1 = false →
      ("Failed " ++ (lines.getD i default).name ++ ": "
          ++ (line_call db lines ty pm receipt i).2.2)
        ∈ (batch_loop db lines ty pm receipt []).2 := by
  induction lines with
  | nil =>
    intro db ty pm receipt i hi
    simp at hi
  | cons a t ih =>
    intro db ty pm receipt i hi hfail
    rw [batch_loop_cons]
    cases i with
    | zero =>
      have hc : line_call db (a :: t) ty pm receipt 0
          = update_stock db a.id a.name (batch_change ty a.qty) ty a.note (some receipt) pm := rfl
      rw [hc] at hfail ⊢
      rw [if_neg (by rw [hfail]; exact Bool.false_ne_true)]
      rw [batch_loop_acc]
      simp
    | succ k =>
      rw [line_call_succ_cons] at hfail ⊢
      have hk : k < t.length := by
        simpa using Nat.lt_of_succ_lt_succ hi
      have hmem := ih (update_stock db a.id a.name (batch_change ty a.qty) ty a.note
          (some receipt) pm).1 ty pm receipt k hk hfail
      rw [batch_loop_acc]
      simp only [List.getD_cons_succ]
      exact List.mem_append_right _ hmem

theorem batch_loop_success_row_mem (lines : List CartLine) :
    ∀ (db : DB) (ty pm receipt : String) (j : ℕ), j < lines.length →
      (∀ n, db.log_ok n = true) →
      (line_call db lines ty pm receipt j).2.1 = true →
      ({ item_id := (lines.getD j default).id, item_name := (lines.getD j default).name,
         type_ := ty, quantity := ((lines.getD j default).qty : ℤ),
         note := (lines.getD j default).note, receipt_id := some receipt,
         payment_method := some pm } : Transaction)
        ∈ (batch_loop db lines ty pm receipt []).1.transactions := by
  induction lines with
  | nil =>
    intro db ty pm receipt j hj
    simp at hj
  | cons a t ih =>
    intro db ty pm receipt j hj hlog hsucc
    rw [batch_loop_cons]
    cases j with
    | zero =>
      have hc : line_call db (a :: t) ty pm receipt 0
          = update_stock db a.id a.name (batch_change ty a.qty) ty a.note (some receipt) pm := rfl
      rw [hc] at hsucc
      have happ := update_stock_success_append db a.id a.name (batch_change ty a.qty) ty
        a.note (some receipt) pm (hlog db.log_calls) hsucc
      obtain ⟨t2, ht2⟩ := batch_loop_trans_mono t (update_stock db a.id a.name
        (batch_change ty a.qty) ty a.note (some receipt) pm).1 ty pm receipt
        (if (update_stock db a.id a.name (batch_change ty a.qty) ty a.note
            (some receipt) pm).2.1 = true then []
         else [] ++ ["Failed " ++ a.name ++ ": "
            ++ (update_stock db a.id a.name (batch_change ty a.qty) ty a.note
                  (some receipt) pm).2.2])
      rw [ht2, happ, abs_batch_change]
      simp only [List.getD_cons_zero]
      apply List.mem_append_left
      apply List.mem_append_right
      simp
    | succ k =>
      rw [line_call_succ_cons] at hsucc
      have hk : k < t.length := by
        simpa using Nat.lt_of_succ_lt_succ hj
      have hlog1 : ∀ n, (update_stock db a.id a.name (batch_change ty a.qty) ty a.note
          (some receipt) pm).1.log_ok n = true := by
        intro n
        rw [update_stock_log_ok]
        exact hlog n
      have hmem := ih (update_stock db a.id a.name (batch_change ty a.qty) ty a.note
          (some receipt) pm).1 ty pm receipt k hk hlog1 hsucc
      rw [batch_loop_fst_irrel]
      simpa only [List.getD_cons_succ] using hmem

/-- C6: when some line of a batch fails, `process_batch_transaction` still
processes every remaining line (the final store is the sequential
application of the whole cart, so earlier successes are not rolled back),
returns an aggregate failure built from the full list of per-line errors, and
for every failing line the aggregate error list names that line with its
reason; under fully successful logging, every succeeded line's Transaction
row (carrying the shared receipt identifier) is present in the final store. -/
theorem claim_C6_partial_failure (db : DB) (lines : List CartLine) (ty pm : String)
    (i : ℕ) (hi : i < lines.length)
    (hfail : (line_call { db with uuid_counter := db.uuid_counter + 1 } lines ty pm
        (fresh_uuid db.uuid_counter) i).2.1 = false) :
    ∃ errs,
      process_batch_transaction db lines ty pm
          = ((batch_loop { db with uuid_counter := db.uuid_counter + 1 } lines ty pm
                (fresh_uuid db.uuid_counter) []).1,
             false, "Some items failed: " ++ String.intercalate "; " errs)
        ∧ errs = (batch_loop { db with uuid_counter := db.uuid_counter + 1 } lines ty pm
              (fresh_uuid db.uuid_counter) []).2
        ∧ ("Failed " ++ (lines.getD i default).name ++ ": "
             ++ (line_call { db with uuid_counter := db.uuid_counter + 1 } lines ty pm
                   (fresh_uuid db.uuid_counter) i).2.2) ∈ errs
        ∧ ((∀ n, db.log_ok n = true) →
             ∀ j, j < lines.length →
               (line_call { db with uuid_counter := db.uuid_counter + 1 } lines ty pm
                   (fresh_uuid db.uuid_counter) j).2.1 = true →
               ({ item_id := (lines.getD j default).id,
                  item_name := (lines.getD j default).name, type_ := ty,
                  quantity := ((lines.getD j default).qty : ℤ),
                  note := (lines.getD j default).note,
                  receipt_id := some (fresh_uuid db.uuid_counter),
                  payment_method := some pm } : Transaction)
                 ∈ (batch_loop { db with uuid_counter := db.uuid_counter + 1 } lines ty pm
                     (fresh_uuid db.uuid_counter) []).1.transactions) := by
  have hmem := batch_loop_error_mem lines { db with uuid_counter := db.uuid_counter + 1 }
    ty pm (fresh_uuid db.uuid_counter) i hi hfail
  refine ⟨_, ?_, rfl, hmem, ?_⟩
  · have hne : ((batch_loop { db with uuid_counter := db.uuid_counter + 1 } lines ty pm
        (fresh_uuid db.uuid_counter) []).2).isEmpty = false := by
      cases hL : (batch_loop { db with uuid_counter := db.uuid_counter + 1 } lines ty pm
          (fresh_uuid db.uuid_counter) []).2 with
      | nil => rw [hL] at hmem; simp at hmem
      | cons x xs => rfl
    unfold process_batch_transaction
    simp only [hne, Bool.false_eq_true, if_false, ite_false]
  · intro hlog j hj hsucc
    exact batch_loop_success_row_mem lines { db with uuid_counter := db.uuid_counter + 1 }
      ty pm (fresh_uuid db.uuid_counter) j hj hlog hsucc

def db_c6 : DB :=
  { items := [{ id := 1, name := "ItemA", barcode := none, quantity := 5, price := 10,
                min_threshold := 1, sale_percent := 0, bogo := false },
              { id := 2, name := "ItemB", barcode := none, quantity := 3, price := 5,
                min_threshold := 1, sale_percent := 0, bogo := false }],
    transactions := [], settings := [], next_id := 3, uuid_counter := 0,
    log_ok := fun _ => true, log_calls := 0 }

def lines_c6 : List CartLine :=
  [{ id := 1, name := "ItemA", price := 10, qty := 2, sale_percent := 0, bogo := false, note := "" },
   { id := 2, name := "ItemB", price := 5, qty := 10, sale_percent := 0, bogo := false, note := "" }]

theorem claim_C6_partial_failure_witness :
    ∃ errs,
      process_batch_transaction db_c6 lines_c6 "SALE" "CASH"
          = ((batch_loop { db_c6 with uuid_counter := db_c6.uuid_counter + 1 } lines_c6 "SALE"
                "CASH" (fresh_uuid db_c6.uuid_counter) []).1,
             false, "Some items failed: " ++ String.intercalate "; " errs)
        ∧ errs = (batch_loop { db_c6 with uuid_counter := db_c6.uuid_counter + 1 } lines_c6
              "SALE" "CASH" (fresh_uuid db_c6.uuid_counter) []).2
        ∧ ("Failed " ++ (lines_c6.getD 1 default).name ++ ": "
             ++ (line_call { db_c6 with uuid_counter := db_c6.uuid_counter + 1 } lines_c6
                   "SALE" "CASH" (fresh_uuid db_c6.uuid_counter) 1).2.2) ∈ errs
        ∧ ((∀ n, db_c6.log_ok n = true) →
             ∀ j, j < lines_c6.length →
               (line_call { db_c6 with uuid_counter := db_c6.uuid_counter + 1 } lines_c6
                   "SALE" "CASH" (fresh_uuid db_c6.uuid_counter) j).2.1 = true →
               ({ item_id := (lines_c6.getD j default).id,
                  item_name := (lines_c6.getD j default).name, type_ := "SALE",
                  quantity := ((lines_c6.getD j default).qty : ℤ),
                  note := (lines_c6.getD j default).note,
                  receipt_id := some (fresh_uuid db_c6.uuid_counter),
                  payment_method := some "CASH" } : Transaction)
                 ∈ (batch_loop { db_c6 with uuid_counter := db_c6.uuid_counter + 1 } lines_c6
                     "SALE" "CASH" (fresh_uuid db_c6.uuid_counter) []).1.transactions) :=
  claim_C6_partial_failure db_c6 lines_c6 "SALE" "CASH" 1 (by norm_num [lines_c6]) rfl

/- ═══════════════ Invariants over operation sequences ═══════════════ -/

/-- The operations the invariant claim ranges over: `add_item`,
`update_stock` and `process_batch_transaction`. -/
inductive Op where
  | add (name category maker supplier color : String) (barcode : Option String)
      (quantity : ℤ) (price : ℚ) (min_threshold : ℤ) (sale_percent : ℤ) (bogo : Bool)
  | adjust (item_id : ℕ) (item_name : String) (delta : ℤ) (ty note : String)
      (receipt : Option String) (pm : String)
  | batch (lines : List CartLine) (ty pm : String)

/-- Apply one operation to the store, keeping only the store. -/
def run_op (db : DB) (op : Op) : DB :=
  match op with
  | .add name category maker supplier color barcode quantity price min_threshold sale_percent bogo =>
      (add_item db name category maker supplier color barcode quantity price min_threshold
        sale_percent bogo).1
  | .adjust item_id item_name delta ty note receipt pm =>
      (update_stock db item_id item_name delta ty note receipt pm).1
  | .batch lines ty pm => (process_batch_transaction db lines ty pm).1

/-- Apply a sequence of operations to the store. -/
def run_ops (db : DB) (ops : List Op) : DB := ops.foldl run_op db

/-- An `add_item` operation carries a non-negative initial quantity. -/
def op_add_nonneg : Op → Prop
  | .add _ _ _ _ _ _ quantity _ _ _ _ => 0 ≤ quantity
  | _ => True

theorem write_quantity_nonneg (db : DB) (item_id : ℕ) (q : ℤ) (hq : 0 ≤ q)
    (hinv : ∀ it ∈ db.items, 0 ≤ it.quantity) :
    ∀ it ∈ (write_quantity db item_id q).items, 0 ≤ it.quantity := by
  intro it hit
  unfold write_quantity at hit
  simp only [List.mem_map] at hit
  obtain ⟨it0, hit0, heq⟩ := hit
  by_cases hid : (it0.id == item_id) = true
  · rw [if_pos hid] at heq
    rw [← heq]
    exact hq
  · rw [if_neg hid] at heq
    rw [← heq]
    exact hinv it0 hit0

theorem log_transaction_items (db : DB) (item_id : ℕ) (item_name type_ : String)
    (quantity : ℤ) (note : String) (receipt_id : Option String) (payment_method : String) :
    (log_transaction db item_id item_name type_ quantity note receipt_id payment_method).1.items
      = db.items :=
  (log_transaction_state db item_id item_name type_ quantity note receipt_id payment_method).1

theorem update_stock_fst_items (db : DB) (item_id : ℕ) (item_name : String) (c : ℤ)
    (ty note : String) (r : Option String) (pm : String) :
    (update_stock db item_id item_name c ty note r pm).1.items = db.items
      ∨ ∃ cur, read_quantity db item_id = some cur ∧ 0 ≤ cur + c
          ∧ (update_stock db item_id item_name c ty note r pm).1.items
              = (write_quantity db item_id (cur + c)).items := by
  unfold update_stock
  cases hr : read_quantity db item_id with
  | none => exact Or.inl rfl
  | some cur =>
    by_cases hneg : cur + c < 0
    · simp only [if_pos hneg]
      left
      trivial
    · simp only [if_neg hneg]
      refine Or.inr ⟨cur, rfl, not_lt.mp hneg, ?_⟩
      have hlt := (log_transaction_state (write_quantity db item_id (cur + c)) item_id
        item_name ty (|c|) note r pm).1
      by_cases hb : (log_transaction (write_quantity db item_id (cur + c)) item_id
          item_name ty (|c|) note r pm).2.1 = true
      · simp only [if_pos hb]
        exact hlt
      · simp only [if_neg hb]
        exact hlt

theorem update_stock_items_nonneg (db : DB) (item_id : ℕ) (item_name : String) (c : ℤ)
    (ty note : String) (r : Option String) (pm : String)
    (hinv : ∀ it ∈ db.items, 0 ≤ it.quantity) :
    ∀ it ∈ (update_stock db item_id item_name c ty note r pm).1.items, 0 ≤ it.quantity := by
  rcases update_stock_fst_items db item_id item_name c ty note r pm with h | ⟨cur, _, hpos, h⟩
  · rw [h]
    exact hinv
  · rw [h]
    exact write_quantity_nonneg db item_id (cur + c) hpos hinv

theorem add_item_items_nonneg (db : DB) (name category maker supplier color : String)
    (barcode : Option String) (quantity : ℤ) (price : ℚ) (min_threshold : ℤ)
    (sale_percent : ℤ) (bogo : Bool) (hq : 0 ≤ quantity)
    (hinv : ∀ it ∈ db.items, 0 ≤ it.quantity) :
    ∀ it ∈ (add_item db name category maker supplier color barcode quantity price
        min_threshold sale_percent bogo).1.items, 0 ≤ it.quantity := by
  unfold add_item
  by_cases h1 : ((db.items.find? (fun it => it.name == name)).isSome) = true
  · simp only [if_pos h1]
    exact hinv
  · simp only [if_neg h1]
    by_cases h2 : ((if barcode == some "" then none else barcode).isSome
        && (db.items.find? (fun it => it.barcode
              == if barcode == some "" then none else barcode)).isSome) = true
    · simp only [h2, if_true, ite_true]
      exact hinv
    · simp only [h2, Bool.false_eq_true, if_false, ite_false]
      intro it hit
      rw [log_transaction_items] at hit
      simp only [List.mem_append, List.mem_singleton] at hit
      rcases hit with hit | hit
      · exact hinv it hit
      · rw [hit]
        exact hq

theorem batch_loop_items_nonneg (lines : List CartLine) :
    ∀ (db : DB) (ty pm receipt : String) (errs : List String),
      (∀ it ∈ db.items, 0 ≤ it.quantity) →
      ∀ it ∈ (batch_loop db lines ty pm receipt errs).1.items, 0 ≤ it.quantity := by
  induction lines with
  | nil =>
    intro db ty pm receipt errs hinv
    exact hinv
  | cons a t ih =>
    intro db ty pm receipt errs hinv
    rw [batch_loop_cons]
    exact ih _ ty pm receipt _
      (update_stock_items_nonneg db a.id a.name (batch_change ty a.qty) ty a.note
        (some receipt) pm hinv)

theorem run_op_items_nonneg (db : DB) (op : Op) (hop : op_add_nonneg op)
    (hinv : ∀ it ∈ db.items, 0 ≤ it.quantity) :
    ∀ it ∈ (run_op db op).items, 0 ≤ it.quantity := by
  cases op with
  | add name category maker supplier color barcode quantity price min_threshold sale_percent bogo =>
    exact add_item_items_nonneg db name category maker supplier color barcode quantity price
      min_threshold sale_percent bogo hop hinv
  | adjust item_id item_name delta ty note receipt pm =>
    exact update_stock_items_nonneg db item_id item_name delta ty note receipt pm hinv
  | batch lines ty pm =>
    unfold run_op process_batch_transaction
    by_cases hb : ((batch_loop { db with uuid_counter := db.uuid_counter + 1 } lines ty pm
        (fresh_uuid db.uuid_counter) []).2).isEmpty = true
    · simp only [hb, if_true, ite_true]
      exact batch_loop_items_nonneg lines _ ty pm _ [] hinv
    · simp only [hb, Bool.false_eq_true, if_false, ite_false]
      exact batch_loop_items_nonneg lines _ ty pm _ [] hinv

def db_c7 : DB :=
  { items := [], transactions := [], settings := [], next_id := 1, uuid_counter := 0,
    log_ok := fun _ => true, log_calls := 0 }

/-- C7 counterexample: `add_item` performs no validation of the initial
quantity, so the single-operation sequence `add_item` with quantity `-5`
succeeds and leaves an Item whose stored quantity is negative, refuting the
claimed unconditional non-negativity invariant. -/
theorem claim_C7_counterexample :
    (add_item db_c7 "Widget" "CAT" "MK" "SUP" "BLUE" none (-5) 10 1 0 false).2.1 = true
      ∧ ((run_ops db_c7 [Op.add "Widget" "CAT" "MK" "SUP" "BLUE" none (-5) 10 1 0 false]).items.map
          (fun it => it.quantity)) = [-5]
      ∧ ¬ (0 ≤ (-5 : ℤ)) := by
  refine ⟨rfl, rfl, by norm_num⟩

/-- C7 (amended): provided every `add_item` carries a non-negative initial
quantity, every sequence of operations preserves non-negativity of every
Item's quantity; and, provided the log insert succeeds, every successful
stock update appends exactly one Transaction row whose stored quantity is
the absolute magnitude `|delta|` of the change, positive whenever the delta
is nonzero. -/
theorem claim_C7_amended_invariant :
    (∀ (db : DB) (ops : List Op),
        (∀ it ∈ db.items, 0 ≤ it.quantity) →
        (∀ op ∈ ops, op_add_nonneg op) →
        ∀ it ∈ (run_ops db ops).items, 0 ≤ it.quantity)
    ∧ (∀ (db : DB) (item_id : ℕ) (item_name : String) (delta : ℤ) (ty note : String)
          (r : Option String) (pm : String),
        db.log_ok db.log_calls = true →
        (update_stock db item_id item_name delta ty note r pm).2.1 = true →
        (update_stock db item_id item_name delta ty note r pm).1.transactions
            = db.transactions ++
              [{ item_id := item_id, item_name := item_name, type_ := ty, quantity := |delta|,
                 note := note, receipt_id := r, payment_method := some pm }]
          ∧ (delta ≠ 0 → 0 < |delta|)) := by
  constructor
  · intro db ops
    induction ops generalizing db with
    | nil =>
      intro hinv _
      exact hinv
    | cons op rest ih =>
      intro hinv hops
      rw [run_ops, List.foldl_cons]
      exact ih (run_op db op)
        (run_op_items_nonneg db op (hops op (List.mem_cons_self op rest)) hinv)
        (fun o ho => hops o (List.mem_cons_of_mem op ho))
  · intro db item_id item_name delta ty note r pm hlog hsucc
    refine ⟨update_stock_success_append db item_id item_name delta ty note r pm hlog hsucc, ?_⟩
    intro hne
    exact abs_pos.mpr hne

theorem claim_C7_amended_invariant_witness :
    (update_stock db_c1 1 "Widget" (-1) "SALE" "note" none "CASH").1.transactions
        = db_c1.transactions ++
          [{ item_id := 1, item_name := "Widget", type_ := "SALE", quantity := |(-1 : ℤ)|,
             note := "note", receipt_id := none, payment_method := some "CASH" }]
      ∧ ((-1 : ℤ) ≠ 0 → 0 < |(-1 : ℤ)|) :=
  claim_C7_amended_invariant.2 db_c1 1 "Widget" (-1) "SALE" "note" none "CASH" rfl rfl

/- ═══════════════ Concurrency structure of the stock adjustment ═══════════════ -/

def db_c9 : DB :=
  { items := [{ id := 1, name := "Widget", barcode := none, quantity := 5, price := 10,
                min_threshold := 1, sale_percent := 0, bogo := false }],
    transactions := [], settings := [], next_id := 2, uuid_counter := 0,
    log_ok := fun _ => true, log_calls := 0 }

/-- C9: `update_stock` is structured as the plain read `read_quantity`
followed by the separate unconditional write `write_quantity` (steps 1 and 2
of the source), not an atomic conditional update.  Interleaving two
adjustments of the same item (delta `-3` and delta `-1`, both reads before
either write) therefore has both adjustments read the same current quantity
`5` and write values computed from it: the final quantity is `4`, losing the
`-3` update, while the sequential composition of the same two `update_stock`
calls yields `1`.  This refutes the claimed impossibility of both
adjustments reading the same current quantity and writing conflicting
values. -/
theorem claim_C9_lost_update :
    read_quantity db_c9 1 = some 5
      ∧ read_quantity (write_quantity (write_quantity db_c9 1 (5 + (-3))) 1 (5 + (-1))) 1
          = some 4
      ∧ read_quantity ((update_stock ((update_stock db_c9 1 "Widget" (-3) "SALE" "" none
            "CASH").1) 1 "Widget" (-1) "SALE" "" none "CASH").1) 1 = some 1
      ∧ (4 : ℤ) ≠ 1 := by
  refine ⟨rfl, rfl, rfl, by norm_num⟩

/- ═══════════ Live Cart Publisher (src/backend.py) and its JSON layer ═══════════ -/

/-!
`update_live_cart` serializes the cart snapshot with Python's `json.dumps`
and upserts it under the key `live_cart_data` of `system_settings`;
`get_live_cart` reads that key back and deserializes with `json.loads`.
The external `json` library is embedded below: `Json` is the type of
serializable snapshots, `printJson`/`json_dumps` the serializer (with
Python's `", "`/`": "` separators, integer and float rendering, and string
escaping) and `parseVal`/`json_loads` the recursive-descent parser, whose
number scanner follows Python's number regex
`(-?(?:0|[1-9][0-9]*))(\.[0-9]+)?([eE][-+]?[0-9]+)?` (an `int` results when
neither fraction nor exponent is present, a `float` otherwise).
-/

/-- JSON values as Python's `json` library distinguishes them: `num` is a
Python `int`; `fnum m d` is a Python `float` modeled as the exact decimal
`m / 10 ^ (d + 1)`, carrying `d + 1` fractional digits (Python serializes
every float with at least one digit after the decimal point). -/
inductive Json where
  | null
  | bool (b : Bool)
  | num (n : ℤ)
  | fnum (m : ℤ) (d : ℕ)
  | str (s : List Char)
  | arr (elems : List Json)
  | obj (members : List (List Char × Json))

def nibbleChar (n : ℕ) : Char :=
  Char.ofNat (if n < 10 then 48 + n else 87 + n)

def escape_char (c : Char) : List Char :=
  if c = '"' then ['\\', '"']
  else if c = '\\' then ['\\', '\\']
  else if c.toNat < 32 then
    '\\' :: 'u' :: '0' :: '0' :: nibbleChar (c.toNat / 16) :: [nibbleChar (c.toNat % 16)]
  else [c]

def escape_string : List Char → List Char
  | [] => []
  | c :: cs => escape_char c ++ escape_string cs

def natCharsAux : ℕ → ℕ → List Char → List Char
  | 0, _, acc => acc
  | fuel + 1, n, acc =>
    if n < 10 then Nat.digitChar n :: acc
    else natCharsAux fuel (n / 10) (Nat.digitChar (n % 10) :: acc)

def natChars (n : ℕ) : List Char := natCharsAux (n + 1) n []

def intChars (n : ℤ) : List Char :=
  if n < 0 then '-' :: natChars n.natAbs else natChars n.natAbs

/-- The digit characters of the decimal `m / 10 ^ (d + 1)`: the digits of
`m` left-padded with `'0'` so that at least one digit sits before the
decimal point. -/
def decChars (m : ℕ) (d : ℕ) : List Char :=
  List.replicate (d + 2 - (natChars m).length) '0' ++ natChars m

/-- How Python's `json.dumps` renders the float `m / 10 ^ (d + 1)`: optional
sign, the integer digits, `'.'`, then exactly `d + 1` fractional digits. -/
def floatChars (m : ℤ) (d : ℕ) : List Char :=
  (if m < 0 then ['-'] else [])
    ++ ((decChars m.natAbs d).take ((decChars m.natAbs d).length - (d + 1))
      ++ '.' :: (decChars m.natAbs d).drop ((decChars m.natAbs d).length - (d + 1)))

mutual
def printJson : Json → List Char
  | .null => "null".data
  | .bool true => "true".data
  | .bool false => "false".data
  | .num n => intChars n
  | .fnum m d => floatChars m d
  | .str s => '"' :: (escape_string s ++ ['"'])
  | .arr [] => ['[', ']']
  | .arr (e :: es) => '[' :: (printJson e ++ printArrTail es ++ [']'])
  | .obj [] => ['\x7b', '\x7d']
  | .obj (m :: ms) => '\x7b' :: (printMember m ++ printObjTail ms ++ ['\x7d'])
termination_by structural j => j

def printMember : List Char × Json → List Char
  | (k, v) => '"' :: (escape_string k ++ ['"', ':', ' '] ++ printJson v)
termination_by structural m => m

def printArrTail : List Json → List Char
  | [] => []
  | e :: es => ',' :: ' ' :: (printJson e ++ printArrTail es)
termination_by structural es => es

def printObjTail : List (List Char × Json) → List Char
  | [] => []
  | m :: ms => ',' :: ' ' :: (printMember m ++ printObjTail ms)
termination_by structural ms => ms
end

mutual
def jsize : Json → ℕ
  | .null => 1
  | .bool _ => 1
  | .num _ => 1
  | .fnum _ _ => 1
  | .str _ => 1
  | .arr es => 1 + jsizeList es
  | .obj ms => 1 + jsizeMembers ms

def jsizeList : List Json → ℕ
  | [] => 0
  | e :: es => 1 + jsize e + jsizeList es

def jsizeMembers : List (List Char × Json) → ℕ
  | [] => 0
  | m :: ms => 1 + jsize m.2 + jsizeMembers ms
end


def json_ws (c : Char) : Bool :=
  c = ' ' || c = '\n' || c = '\t' || c = '\r'

def skipWs : List Char → List Char
  | [] => []
  | c :: cs => if json_ws c then skipWs cs else c :: cs

def hexVal (c : Char) : Option ℕ :=
  if c.isDigit then some (c.toNat - 48)
  else if 'a' ≤ c ∧ c ≤ 'f' then some (c.toNat - 87)
  else if 'A' ≤ c ∧ c ≤ 'F' then some (c.toNat - 55)
  else none

def escape_code (c : Char) : Option Char :=
  if c = '"' then some '"'
  else if c = '\\' then some '\\'
  else if c = '/' then some '/'
  else if c = 'b' then some (Char.ofNat 8)
  else if c = 'f' then some (Char.ofNat 12)
  else if c = 'n' then some '\n'
  else if c = 'r' then some '\r'
  else if c = 't' then some '\t'
  else none

def parseStringBody : List Char → Option (List Char × List Char)
  | [] => none
  | c :: cs =>
    if c = '"' then some ([], cs)
    else if c = '\\' then
      match cs with
      | [] => none
      | e :: cs2 =>
        if e = 'u' then
          match cs2 with
          | h1 :: h2 :: h3 :: h4 :: cs4 =>
            match hexVal h1, hexVal h2, hexVal h3, hexVal h4 with
            | some v1, some v2, some v3, some v4 =>
              match parseStringBody cs4 with
              | some (s, rest) =>
                some (Char.ofNat (((v1 * 16 + v2) * 16 + v3) * 16 + v4) :: s, rest)
              | none => none
            | _, _, _, _ => none
          | _ => none
        else
          match escape_code e with
          | some d =>
            match parseStringBody cs2 with
            | some (s, rest) => some (d :: s, rest)
            | none => none
          | none => none
    else
      match parseStringBody cs with
      | some (s, rest) => some (c :: s, rest)
      | none => none

def digitsRun : List Char → List ℕ × List Char
  | [] => ([], [])
  | c :: cs =>
    if c.isDigit then
      let r := digitsRun cs
      ((c.toNat - 48) :: r.1, r.2)
    else ([], c :: cs)

def natFromDigits (ds : List ℕ) : ℕ := ds.foldl (fun a d => a * 10 + d) 0

/-- A character that terminates a JSON number literal: not a digit and not
one of `.`, `e`, `E` (which could extend the literal). -/
def numStop (c : Char) : Bool :=
  !c.isDigit && !(c == '.') && !(c == 'e') && !(c == 'E')

def intSign (neg : Bool) (n : ℕ) : ℤ := if neg then -(n : ℤ) else (n : ℤ)

/-- The float value Python builds from a matched number literal with integer
digits `I`, fractional digits `F` and exponent `e`, renormalized into the
`fnum` representation (mantissa over `10 ^ (d + 1)`). -/
def mkFloat (neg : Bool) (I F : List ℕ) (e : Option ℤ) : Json :=
  if 1 ≤ (F.length : ℤ) - e.getD 0 then
    .fnum (intSign neg (natFromDigits (I ++ F))) (((F.length : ℤ) - e.getD 0 - 1).toNat)
  else
    .fnum (intSign neg (natFromDigits (I ++ F) * 10 ^ ((1 - ((F.length : ℤ) - e.getD 0)).toNat)))
      0

/-- The integer-digit part of Python's number regex, `0 | [1-9][0-9]*`: a
leading `'0'` matches alone, otherwise a maximal digit run. -/
def intDigitsScan : List Char → Option (List ℕ × List Char)
  | [] => none
  | c :: cs =>
    if c = '0' then some ([0], cs)
    else if c.isDigit then
      some ((c.toNat - 48) :: (digitsRun cs).1, (digitsRun cs).2)
    else none

/-- The optional fractional part `(\.[0-9]+)?`: consumed only when a `'.'`
is followed by at least one digit, otherwise the input is left untouched. -/
def fracScan : List Char → List ℕ × List Char
  | [] => ([], [])
  | c :: cs =>
    if c = '.' then
      match digitsRun cs with
      | ([], _) => ([], c :: cs)
      | (ds, r) => (ds, r)
    else ([], c :: cs)

/-- The optional exponent part `([eE][-+]?[0-9]+)?`: consumed only when the
sign and at least one digit follow, otherwise the input is left untouched. -/
def expScan : List Char → Option ℤ × List Char
  | [] => (none, [])
  | c :: cs =>
    if c = 'e' ∨ c = 'E' then
      match cs with
      | [] => (none, c :: cs)
      | c1 :: cs1 =>
        if c1 = '+' then
          match digitsRun cs1 with
          | ([], _) => (none, c :: cs)
          | (ds, r) => (some (natFromDigits ds : ℤ), r)
        else if c1 = '-' then
          match digitsRun cs1 with
          | ([], _) => (none, c :: cs)
          | (ds, r) => (some (-(natFromDigits ds : ℤ)), r)
        else
          match digitsRun (c1 :: cs1) with
          | ([], _) => (none, c :: cs)
          | (ds, r) => (some (natFromDigits ds : ℤ), r)
    else (none, c :: cs)

/-- Scanning a number literal as Python's `json` scanner does: match the
integer part, then the optional fraction and exponent; the result is an
`int` when neither fraction nor exponent matched, a `float` otherwise. -/
def scanNumber (neg : Bool) (cs : List Char) : Option (Json × List Char) :=
  match intDigitsScan cs with
  | none => none
  | some (I, r1) =>
    match fracScan r1 with
    | (F, r2) =>
      match expScan r2 with
      | (oe, r3) =>
        if F.isEmpty ∧ oe.isNone then some (.num (intSign neg (natFromDigits I)), r3)
        else some (mkFloat neg I F oe, r3)

mutual
def parseVal : ℕ → List Char → Option (Json × List Char)
  | 0, _ => none
  | fuel + 1, input =>
    match skipWs input with
    | [] => none
    | c :: cs =>
      if c = 'n' then
        match cs with
        | 'u' :: 'l' :: 'l' :: rest => some (.null, rest)
        | _ => none
      else if c = 't' then
        match cs with
        | 'r' :: 'u' :: 'e' :: rest => some (.bool true, rest)
        | _ => none
      else if c = 'f' then
        match cs with
        | 'a' :: 'l' :: 's' :: 'e' :: rest => some (.bool false, rest)
        | _ => none
      else if c = '"' then
        match parseStringBody cs with
        | some (s, rest) => some (.str s, rest)
        | none => none
      else if c = '[' then
        match skipWs cs with
        | [] => none
        | c1 :: cs1 =>
          if c1 = ']' then some (.arr [], cs1)
          else
            match parseVal fuel (c1 :: cs1) with
            | some (v, rest1) =>
              match parseArrTail fuel rest1 with
              | some (vs, rest2) => some (.arr (v :: vs), rest2)
              | none => none
            | none => none
      else if c = '\x7b' then
        match skipWs cs with
        | [] => none
        | c1 :: cs1 =>
          if c1 = '\x7d' then some (.obj [], cs1)
          else
            match parseMember fuel (c1 :: cs1) with
            | some (m, rest1) =>
              match parseObjTail fuel rest1 with
              | some (ms, rest2) => some (.obj (m :: ms), rest2)
              | none => none
            | none => none
      else if c = '-' then scanNumber true cs
      else if c.isDigit then scanNumber false (c :: cs)
      else none

def parseMember : ℕ → List Char → Option ((List Char × Json) × List Char)
  | 0, _ => none
  | fuel + 1, input =>
    match skipWs input with
    | [] => none
    | c :: cs =>
      if c = '"' then
        match parseStringBody cs with
        | some (k, rest1) =>
          match skipWs rest1 with
          | [] => none
          | c2 :: rest2 =>
            if c2 = ':' then
              match parseVal fuel rest2 with
              | some (v, rest3) => some ((k, v), rest3)
              | none => none
            else none
        | none => none
      else none

def parseArrTail : ℕ → List Char → Option (List Json × List Char)
  | 0, _ => none
  | fuel + 1, input =>
    match skipWs input with
    | [] => none
    | c :: rest =>
      if c = ']' then some ([], rest)
      else if c = ',' then
        match parseVal fuel rest with
        | some (v, rest1) =>
          match parseArrTail fuel rest1 with
          | some (vs, rest2) => some (v :: vs, rest2)
          | none => none
        | none => none
      else none

def parseObjTail : ℕ → List Char → Option (List (List Char × Json) × List Char)
  | 0, _ => none
  | fuel + 1, input =>
    match skipWs input with
    | [] => none
    | c :: rest =>
      if c = '\x7d' then some ([], rest)
      else if c = ',' then
        match parseMember fuel rest with
        | some (m, rest1) =>
          match parseObjTail fuel rest1 with
          | some (ms, rest2) => some (m :: ms, rest2)
          | none => none
        | none => none
      else none
end

def json_loads (s : List Char) : Option Json :=
  match parseVal (s.length + 1) s with
  | some (j, rest) => if (skipWs rest).isEmpty then some j else none
  | none => none

def json_dumps (j : Json) : List Char := printJson j


theorem skipWs_cons_not_ws (c : Char) (cs : List Char) (h : json_ws c = false) :
    skipWs (c :: cs) = c :: cs := by
  rw [skipWs, h]
  simp

theorem hexVal_nibbleChar (d : ℕ) (h : d < 16) : hexVal (nibbleChar d) = some d := by
  interval_cases d <;> decide

theorem parseStringBody_escape_pair (e d : Char) (X : List Char)
    (hu : ¬ e = 'u') (hcode : escape_code e = some d) :
    parseStringBody ('\\' :: e :: X) = (parseStringBody X).map (fun p => (d :: p.1, p.2)) := by
  rw [parseStringBody.eq_def]
  dsimp only
  rw [if_neg (by decide), if_pos rfl]
  rw [if_neg hu, hcode]
  cases hp : parseStringBody X with
  | none => rfl
  | some p => obtain ⟨s, r⟩ := p; rfl

theorem parse_escape_char_step (c : Char) (X : List Char) :
    parseStringBody (escape_char c ++ X)
      = (parseStringBody X).map (fun p => (c :: p.1, p.2)) := by
  by_cases h1 : c = '"'
  · subst h1
    rw [show escape_char '"' = ['\\', '"'] from by decide]
    simp only [List.cons_append, List.nil_append]
    exact parseStringBody_escape_pair '"' '"' X (by decide) (by decide)
  · by_cases h2 : c = '\\'
    · subst h2
      rw [show escape_char '\\' = ['\\', '\\'] from by decide]
      simp only [List.cons_append, List.nil_append]
      exact parseStringBody_escape_pair '\\' '\\' X (by decide) (by decide)
    · by_cases h3 : c.toNat < 32
      · have e0 : hexVal '0' = some 0 := by decide
        have e1 : hexVal (nibbleChar (c.toNat / 16)) = some (c.toNat / 16) :=
          hexVal_nibbleChar _ (by omega)
        have e2 : hexVal (nibbleChar (c.toNat % 16)) = some (c.toNat % 16) :=
          hexVal_nibbleChar _ (Nat.mod_lt _ (by norm_num))
        have key : Char.ofNat (((0 * 16 + 0) * 16 + c.toNat / 16) * 16 + c.toNat % 16) = c := by
          rw [show ((0 * 16 + 0) * 16 + c.toNat / 16) * 16 + c.toNat % 16 = c.toNat from by
            omega]
          exact Char.ofNat_toNat c
        rw [escape_char, if_neg h1, if_neg h2, if_pos h3]
        simp only [List.cons_append, List.nil_append]
        rw [parseStringBody.eq_def]
        dsimp only
        rw [if_neg (by decide), if_pos rfl]
        rw [if_pos rfl]
        rw [e0, e1, e2]
        cases hp : parseStringBody X with
        | none => rfl
        | some p => obtain ⟨s, r⟩ := p; dsimp only; rw [key]; rfl
      · rw [escape_char, if_neg h1, if_neg h2, if_neg h3]
        simp only [List.cons_append, List.nil_append]
        rw [parseStringBody.eq_def]
        dsimp only
        rw [if_neg h1, if_neg h2]
        cases hp : parseStringBody X with
        | none => rfl
        | some p => obtain ⟨s, r⟩ := p; rfl

theorem parseStringBody_escape (s : List Char) (rest : List Char) :
    parseStringBody (escape_string s ++ ('"' :: rest)) = some (s, rest) := by
  induction s with
  | nil =>
    rw [escape_string, List.nil_append, parseStringBody.eq_def]
    dsimp only
    rw [if_pos rfl]
  | cons c cs ih =>
    rw [escape_string, List.append_assoc, parse_escape_char_step, ih]
    rfl

/-- The abstract digit list a natural number prints as (most significant first). -/
def natDigits (n : ℕ) : List ℕ :=
  if n = 0 then [0] else (Nat.digits 10 n).reverse

theorem digitChar_props (d : ℕ) (h : d < 10) :
    (Nat.digitChar d).isDigit = true ∧ (Nat.digitChar d).toNat - 48 = d
      ∧ json_ws (Nat.digitChar d) = false
      ∧ Nat.digitChar d ≠ 'n' ∧ Nat.digitChar d ≠ 't' ∧ Nat.digitChar d ≠ 'f'
      ∧ Nat.digitChar d ≠ '"' ∧ Nat.digitChar d ≠ '[' ∧ Nat.digitChar d ≠ '\x7b'
      ∧ Nat.digitChar d ≠ '-' ∧ Nat.digitChar d ≠ ']' ∧ Nat.digitChar d ≠ '\x7d' := by
  interval_cases d <;> exact (by decide)

theorem natDigits_lt (n : ℕ) : ∀ d ∈ natDigits n, d < 10 := by
  intro d hd
  unfold natDigits at hd
  by_cases h : n = 0
  · rw [if_pos h] at hd
    simp at hd
    omega
  · rw [if_neg h] at hd
    rw [List.mem_reverse] at hd
    exact Nat.digits_lt_base (by norm_num) hd

theorem natCharsAux_eq (fuel : ℕ) :
    ∀ (n : ℕ) (acc : List Char), n < fuel →
      natCharsAux fuel n acc = (natDigits n).map Nat.digitChar ++ acc := by
  induction fuel with
  | zero =>
    intro n acc h
    omega
  | succ f ih =>
    intro n acc h
    rw [natCharsAux]
    by_cases h10 : n < 10
    · rw [if_pos h10]
      by_cases h0 : n = 0
      · subst h0
        rw [natDigits, if_pos rfl]
        rfl
      · rw [natDigits, if_neg h0]
        rw [Nat.digits_def' (by norm_num : (1 : ℕ) < 10) (Nat.pos_of_ne_zero h0)]
        rw [Nat.mod_eq_of_lt h10, Nat.div_eq_of_lt h10]
        simp
    · rw [if_neg h10]
      have hn0 : n ≠ 0 := by omega
      have hd : n / 10 < f := by
        have := Nat.div_lt_self (Nat.pos_of_ne_zero hn0) (by norm_num : (1:ℕ) < 10)
        omega
      have hq : n / 10 ≠ 0 := by
        intro hq0
        rw [Nat.div_eq_zero_iff (by norm_num : 0 < 10)] at hq0
        omega
      rw [ih (n / 10) _ hd]
      rw [natDigits, if_neg hq]
      conv_rhs => rw [natDigits, if_neg hn0]
      rw [Nat.digits_def' (by norm_num : (1 : ℕ) < 10) (Nat.pos_of_ne_zero hn0)]
      simp [List.map_append]

theorem natChars_eq (n : ℕ) : natChars n = (natDigits n).map Nat.digitChar := by
  rw [natChars, natCharsAux_eq (n + 1) n [] (by omega), List.append_nil]

theorem natFromDigits_reverse (L : List ℕ) :
    natFromDigits L.reverse = Nat.ofDigits 10 L := by
  induction L with
  | nil => rfl
  | cons d L ih =>
    rw [List.reverse_cons, natFromDigits, List.foldl_append]
    rw [show List.foldl (fun a d => a * 10 + d) (List.foldl (fun a d => a * 10 + d) 0 L.reverse)
        [d] = (List.foldl (fun a d => a * 10 + d) 0 L.reverse) * 10 + d from rfl]
    rw [show List.foldl (fun a d => a * 10 + d) 0 L.reverse = natFromDigits L.reverse from rfl]
    rw [ih, Nat.ofDigits_cons]
    ring

theorem natFromDigits_natDigits (n : ℕ) : natFromDigits (natDigits n) = n := by
  by_cases h : n = 0
  · subst h
    rfl
  · rw [natDigits, if_neg h, natFromDigits_reverse, Nat.ofDigits_digits]

theorem natDigits_ne_nil (n : ℕ) : natDigits n ≠ [] := by
  unfold natDigits
  by_cases h : n = 0
  · rw [if_pos h]
    simp
  · rw [if_neg h]
    simp [Nat.digits_ne_nil_iff_ne_zero, h]

theorem digitsRun_map (ds : List ℕ) (rest : List Char)
    (hds : ∀ d ∈ ds, d < 10)
    (hrest : ∀ c cs, rest = c :: cs → c.isDigit = false) :
    digitsRun (ds.map Nat.digitChar ++ rest) = (ds, rest) := by
  induction ds with
  | nil =>
    cases rest with
    | nil => rfl
    | cons c cs =>
      rw [List.map_nil, List.nil_append, digitsRun, if_neg (by rw [hrest c cs rfl]; simp)]
  | cons d ds ih =>
    have hd := hds d (List.mem_cons_self d ds)
    have hprops := digitChar_props d hd
    rw [List.map_cons, List.cons_append, digitsRun, if_pos hprops.1]
    rw [ih (fun x hx => hds x (List.mem_cons_of_mem d hx))]
    simp [hprops.2.1]

theorem numStop_facts (c : Char) (h : numStop c = true) :
    c.isDigit = false ∧ c ≠ '.' ∧ c ≠ 'e' ∧ c ≠ 'E' := by
  rw [numStop] at h
  simp only [Bool.and_eq_true, Bool.not_eq_true', beq_eq_false_iff_ne, ne_eq] at h
  exact ⟨h.1.1.1, h.1.1.2, h.1.2, h.2⟩

theorem natDigits_lead (n : ℕ) : ∀ t, natDigits n = 0 :: t → t = [] := by
  intro t ht
  by_cases h : n = 0
  · subst h
    rw [natDigits, if_pos rfl] at ht
    injection ht with h1 h2
    exact h2.symm
  · exfalso
    rw [natDigits, if_neg h] at ht
    have hne : Nat.digits 10 n ≠ [] := Nat.digits_ne_nil_iff_ne_zero.mpr h
    have hd : Nat.digits 10 n = t.reverse ++ [0] := by
      have h2 := congrArg List.reverse ht
      rw [List.reverse_reverse, List.reverse_cons] at h2
      exact h2
    have h0 : (Nat.digits 10 n).getLast? = some 0 := by
      rw [hd, List.getLast?_concat]
    rw [List.getLast?_eq_getLast _ hne] at h0
    exact Nat.getLast_digit_ne_zero 10 h (Option.some.inj h0)

theorem natFromDigits_zero_cons (L : List ℕ) : natFromDigits (0 :: L) = natFromDigits L := rfl

theorem natFromDigits_replicate_zero (p : ℕ) (L : List ℕ) :
    natFromDigits (List.replicate p 0 ++ L) = natFromDigits L := by
  induction p with
  | zero => rfl
  | succ q ih =>
    rw [List.replicate_succ, List.cons_append, natFromDigits_zero_cons, ih]

/-- The abstract digit list behind `decChars`: the digits of `m` left-padded
with zeros so that at least `d + 2` digits are present. -/
def fnumDigits (m : ℕ) (d : ℕ) : List ℕ :=
  List.replicate (d + 2 - (natDigits m).length) 0 ++ natDigits m

/-- The integer-part digits of the decimal `m / 10 ^ (d + 1)`. -/
def fnumInt (m : ℕ) (d : ℕ) : List ℕ :=
  (fnumDigits m d).take ((fnumDigits m d).length - (d + 1))

/-- The fractional digits of the decimal `m / 10 ^ (d + 1)`. -/
def fnumFrac (m : ℕ) (d : ℕ) : List ℕ :=
  (fnumDigits m d).drop ((fnumDigits m d).length - (d + 1))

theorem fnumDigits_len (m d : ℕ) : d + 2 ≤ (fnumDigits m d).length := by
  rw [fnumDigits, List.length_append, List.length_replicate]
  have h1 : 1 ≤ (natDigits m).length := List.length_pos.mpr (natDigits_ne_nil m)
  omega

theorem fnumDigits_lt (m d : ℕ) : ∀ x ∈ fnumDigits m d, x < 10 := by
  intro x hx
  rw [fnumDigits, List.mem_append] at hx
  rcases hx with hx | hx
  · rw [List.eq_of_mem_replicate hx]
    norm_num
  · exact natDigits_lt m x hx

theorem fnumDigits_val (m d : ℕ) : natFromDigits (fnumDigits m d) = m := by
  rw [fnumDigits, natFromDigits_replicate_zero, natFromDigits_natDigits]

theorem fnumInt_append_frac (m d : ℕ) : fnumInt m d ++ fnumFrac m d = fnumDigits m d :=
  List.take_append_drop _ _

theorem fnumFrac_len (m d : ℕ) : (fnumFrac m d).length = d + 1 := by
  rw [fnumFrac, List.length_drop]
  have := fnumDigits_len m d
  omega

theorem fnumInt_len (m d : ℕ) : (fnumInt m d).length = (fnumDigits m d).length - (d + 1) := by
  rw [fnumInt, List.length_take]
  have := fnumDigits_len m d
  omega

theorem fnumInt_ne (m d : ℕ) : fnumInt m d ≠ [] := by
  intro hx
  have h := fnumInt_len m d
  have h2 := fnumDigits_len m d
  rw [hx, List.length_nil] at h
  omega

theorem fnumFrac_ne (m d : ℕ) : fnumFrac m d ≠ [] := by
  intro hx
  have h := fnumFrac_len m d
  rw [hx, List.length_nil] at h
  omega

theorem fnumInt_lt (m d : ℕ) : ∀ x ∈ fnumInt m d, x < 10 :=
  fun x hx => fnumDigits_lt m d x (List.take_subset _ _ hx)

theorem fnumFrac_lt (m d : ℕ) : ∀ x ∈ fnumFrac m d, x < 10 :=
  fun x hx => fnumDigits_lt m d x (List.drop_subset _ _ hx)

theorem fnumInt_lead (m d : ℕ) : ∀ t, fnumInt m d = 0 :: t → t = [] := by
  intro t ht
  by_cases hL : (natDigits m).length ≤ d + 1
  · have hlen := fnumInt_len m d
    have hds : (fnumDigits m d).length = d + 2 := by
      rw [fnumDigits, List.length_append, List.length_replicate]
      omega
    rw [hds, ht, List.length_cons] at hlen
    have : t.length = 0 := by omega
    exact List.length_eq_zero.mp this
  · exfalso
    push_neg at hL
    have hpad : d + 2 - (natDigits m).length = 0 := by omega
    have hds : fnumDigits m d = natDigits m := by
      rw [fnumDigits, hpad, List.replicate_zero, List.nil_append]
    rw [fnumInt, hds] at ht
    cases hnd : natDigits m with
    | nil => exact natDigits_ne_nil m hnd
    | cons a l =>
      rw [hnd] at ht hL
      obtain ⟨j, hj⟩ : ∃ j, (a :: l).length - (d + 1) = j + 1 := by
        refine ⟨(a :: l).length - (d + 1) - 1, ?_⟩
        rw [List.length_cons] at hL ⊢
        omega
      rw [hj, List.take_succ_cons] at ht
      injection ht with h1 h2
      have hl : l = [] := natDigits_lead m l (by rw [hnd, h1])
      rw [hl] at hL
      simp at hL

theorem decChars_eq (m d : ℕ) : decChars m d = (fnumDigits m d).map Nat.digitChar := by
  rw [decChars, fnumDigits, natChars_eq, List.map_append, List.map_replicate, List.length_map]
  rfl

theorem floatChars_eq (m : ℤ) (d : ℕ) :
    floatChars m d = (if m < 0 then ['-'] else [])
      ++ ((fnumInt m.natAbs d).map Nat.digitChar
        ++ '.' :: (fnumFrac m.natAbs d).map Nat.digitChar) := by
  rw [floatChars, decChars_eq, fnumInt, fnumFrac, List.length_map,
    ← List.map_take, ← List.map_drop]

theorem digitChar_zero_iff (x : ℕ) (h : x < 10) : Nat.digitChar x = '0' ↔ x = 0 := by
  interval_cases x <;> simp <;> decide

theorem intDigitsScan_print (I : List ℕ) (rest : List Char)
    (hne : I ≠ []) (hlt : ∀ x ∈ I, x < 10)
    (hlead : ∀ t, I = 0 :: t → t = [])
    (hrest : ∀ c cs, rest = c :: cs → c.isDigit = false) :
    intDigitsScan (I.map Nat.digitChar ++ rest) = some (I, rest) := by
  cases I with
  | nil => exact absurd rfl hne
  | cons x t =>
    have hx : x < 10 := hlt x (List.mem_cons_self x t)
    have hch := digitChar_props x hx
    rw [List.map_cons, List.cons_append, intDigitsScan]
    by_cases h0 : x = 0
    · subst h0
      have ht : t = [] := hlead t rfl
      subst ht
      rw [if_pos (by decide)]
      rfl
    · rw [if_neg (fun hc => h0 ((digitChar_zero_iff x hx).mp hc))]
      rw [if_pos hch.1]
      rw [digitsRun_map t rest (fun y hy => hlt y (List.mem_cons_of_mem x hy)) hrest]
      rw [hch.2.1]

theorem fracScan_print (F : List ℕ) (rest : List Char)
    (hne : F ≠ []) (hlt : ∀ x ∈ F, x < 10)
    (hrest : ∀ c cs, rest = c :: cs → c.isDigit = false) :
    fracScan ('.' :: (F.map Nat.digitChar ++ rest)) = (F, rest) := by
  cases F with
  | nil => exact absurd rfl hne
  | cons x t =>
    rw [fracScan, if_pos rfl, digitsRun_map (x :: t) rest hlt hrest]

theorem fracScan_none (rest : List Char) (hrest : ∀ c cs, rest = c :: cs → c ≠ '.') :
    fracScan rest = ([], rest) := by
  cases rest with
  | nil => rfl
  | cons c cs => rw [fracScan, if_neg (hrest c cs rfl)]

theorem expScan_none (rest : List Char)
    (hrest : ∀ c cs, rest = c :: cs → ¬(c = 'e' ∨ c = 'E')) :
    expScan rest = (none, rest) := by
  cases rest with
  | nil => rfl
  | cons c cs =>
    rw [expScan.eq_def]
    dsimp only
    rw [if_neg (hrest c cs rfl)]

theorem scanNumber_int (neg : Bool) (I : List ℕ) (rest : List Char)
    (hne : I ≠ []) (hlt : ∀ x ∈ I, x < 10) (hlead : ∀ t, I = 0 :: t → t = [])
    (hrest : ∀ c cs, rest = c :: cs → numStop c = true) :
    scanNumber neg (I.map Nat.digitChar ++ rest)
      = some (.num (intSign neg (natFromDigits I)), rest) := by
  have hd : ∀ c cs, rest = c :: cs → c.isDigit = false :=
    fun c cs h => (numStop_facts c (hrest c cs h)).1
  have hdot : ∀ c cs, rest = c :: cs → c ≠ '.' :=
    fun c cs h => (numStop_facts c (hrest c cs h)).2.1
  have hexp : ∀ c cs, rest = c :: cs → ¬(c = 'e' ∨ c = 'E') := by
    intro c cs h hor
    rcases hor with h1 | h1
    · exact (numStop_facts c (hrest c cs h)).2.2.1 h1
    · exact (numStop_facts c (hrest c cs h)).2.2.2 h1
  rw [scanNumber, intDigitsScan_print I rest hne hlt hlead hd]
  dsimp only
  rw [fracScan_none rest hdot]
  dsimp only
  rw [expScan_none rest hexp]
  dsimp only
  rw [if_pos ⟨rfl, rfl⟩]

theorem scanNumber_float (neg : Bool) (I F : List ℕ) (rest : List Char)
    (hne : I ≠ []) (hlt : ∀ x ∈ I, x < 10) (hlead : ∀ t, I = 0 :: t → t = [])
    (hFne : F ≠ []) (hFlt : ∀ x ∈ F, x < 10)
    (hrest : ∀ c cs, rest = c :: cs → numStop c = true) :
    scanNumber neg (I.map Nat.digitChar ++ ('.' :: (F.map Nat.digitChar ++ rest)))
      = some (mkFloat neg I F none, rest) := by
  have hd : ∀ c cs, rest = c :: cs → c.isDigit = false :=
    fun c cs h => (numStop_facts c (hrest c cs h)).1
  have hexp : ∀ c cs, rest = c :: cs → ¬(c = 'e' ∨ c = 'E') := by
    intro c cs h hor
    rcases hor with h1 | h1
    · exact (numStop_facts c (hrest c cs h)).2.2.1 h1
    · exact (numStop_facts c (hrest c cs h)).2.2.2 h1
  obtain ⟨x, t, hxt⟩ : ∃ x t, F = x :: t := by
    cases F with
    | nil => exact absurd rfl hFne
    | cons x t => exact ⟨x, t, rfl⟩
  subst hxt
  have hmid : ∀ c cs, ('.' :: ((x :: t).map Nat.digitChar ++ rest)) = c :: cs →
      c.isDigit = false := by
    intro c cs h
    injection h with h1 _
    rw [← h1]
    decide
  rw [scanNumber, intDigitsScan_print I _ hne hlt hlead hmid]
  dsimp only
  rw [fracScan_print (x :: t) rest hFne hFlt hd]
  dsimp only
  rw [expScan_none rest hexp]
  dsimp only
  rw [if_neg (fun hand => by simp at hand)]

theorem natChars_head (n : ℕ) :
    ∃ c cs, natChars n = c :: cs ∧ c.isDigit = true := by
  rw [natChars_eq]
  obtain ⟨d, ds, hds⟩ : ∃ d ds, natDigits n = d :: ds := by
    cases h : natDigits n with
    | nil => exact absurd h (natDigits_ne_nil n)
    | cons d ds => exact ⟨d, ds, rfl⟩
  have hd : d < 10 := natDigits_lt n d (by rw [hds]; exact List.mem_cons_self d ds)
  exact ⟨Nat.digitChar d, ds.map Nat.digitChar, by rw [hds]; rfl, (digitChar_props d hd).1⟩

theorem parseVal_ws_cons (fuel : ℕ) (c : Char) (X : List Char)
    (hf : 1 ≤ fuel) (hws : json_ws c = true) :
    parseVal fuel (c :: X) = parseVal fuel X := by
  cases fuel with
  | zero => omega
  | succ f =>
    rw [parseVal, parseVal]
    rw [show skipWs (c :: X) = skipWs X from by rw [skipWs, hws]; simp]

theorem jsize_pos (j : Json) : 1 ≤ jsize j := by
  cases j <;> simp [jsize]

theorem isDigit_char_facts (c : Char) (h : c.isDigit = true) :
    json_ws c = false ∧ c ≠ 'n' ∧ c ≠ 't' ∧ c ≠ 'f' ∧ c ≠ '"' ∧ c ≠ '['
      ∧ c ≠ '\x7b' ∧ c ≠ '-' ∧ c ≠ ']' ∧ c ≠ '\x7d' := by
  have hne : ∀ d : Char, d.isDigit = false → c ≠ d := by
    intro d hd he
    rw [he, hd] at h
    cases h
  have h1 := hne ' ' (by decide)
  have h2 := hne '\n' (by decide)
  have h3 := hne '\t' (by decide)
  have h4 := hne '\r' (by decide)
  refine ⟨?_, hne 'n' (by decide), hne 't' (by decide), hne 'f' (by decide),
    hne '"' (by decide), hne '[' (by decide), hne '\x7b' (by decide),
    hne '-' (by decide), hne ']' (by decide), hne '\x7d' (by decide)⟩
  simp [json_ws, h1, h2, h3, h4]

theorem printJson_head (j : Json) :
    ∃ c cs, printJson j = c :: cs ∧ json_ws c = false ∧ c ≠ ']' ∧ c ≠ '\x7d' := by
  cases j with
  | null => exact ⟨'n', _, rfl, by decide⟩
  | bool b =>
    cases b with
    | true => exact ⟨'t', _, rfl, by decide⟩
    | false => exact ⟨'f', _, rfl, by decide⟩
  | num n =>
    by_cases hn : n < 0
    · refine ⟨'-', natChars n.natAbs, ?_, by decide⟩
      rw [show printJson (.num n) = intChars n from rfl, intChars, if_pos hn]
    · obtain ⟨c, cs, hc, hcd⟩ := natChars_head n.natAbs
      have hf := isDigit_char_facts c hcd
      refine ⟨c, cs, ?_, hf.1, hf.2.2.2.2.2.2.2.2.1, hf.2.2.2.2.2.2.2.2.2⟩
      rw [show printJson (.num n) = intChars n from rfl, intChars, if_neg hn, hc]
  | fnum m d =>
    by_cases hm : m < 0
    · refine ⟨'-', (fnumInt m.natAbs d).map Nat.digitChar
        ++ '.' :: (fnumFrac m.natAbs d).map Nat.digitChar, ?_, by decide⟩
      rw [show printJson (.fnum m d) = floatChars m d from rfl, floatChars_eq, if_pos hm]
      rfl
    · obtain ⟨x, t, hxt⟩ : ∃ x t, fnumInt m.natAbs d = x :: t := by
        cases h : fnumInt m.natAbs d with
        | nil => exact absurd h (fnumInt_ne _ _)
        | cons x t => exact ⟨x, t, rfl⟩
      have hx : x < 10 := fnumInt_lt m.natAbs d x (by rw [hxt]; exact List.mem_cons_self x t)
      have hprops := digitChar_props x hx
      have hf := isDigit_char_facts (Nat.digitChar x) hprops.1
      refine ⟨Nat.digitChar x, t.map Nat.digitChar
        ++ '.' :: (fnumFrac m.natAbs d).map Nat.digitChar, ?_, hf.1,
        hf.2.2.2.2.2.2.2.2.1, hf.2.2.2.2.2.2.2.2.2⟩
      rw [show printJson (.fnum m d) = floatChars m d from rfl, floatChars_eq, if_neg hm, hxt]
      rfl
  | str s => exact ⟨'"', _, rfl, by decide⟩
  | arr es =>
    cases es with
    | nil => exact ⟨'[', _, rfl, by decide⟩
    | cons e es => exact ⟨'[', _, rfl, by decide⟩
  | obj ms =>
    cases ms with
    | nil => exact ⟨'\x7b', _, rfl, by decide⟩
    | cons m ms => exact ⟨'\x7b', _, rfl, by decide⟩

theorem arrTail_head_guard (es : List Json) (rest : List Char) :
    ∀ c cs, printArrTail es ++ (']' :: rest) = c :: cs → numStop c = true := by
  intro c cs h
  cases es with
  | nil =>
    rw [show printArrTail [] = [] from rfl, List.nil_append] at h
    injection h with h1 _
    rw [← h1]
    decide
  | cons e es =>
    rw [show printArrTail (e :: es) = ',' :: ' ' :: (printJson e ++ printArrTail es) from rfl,
      List.cons_append] at h
    injection h with h1 _
    rw [← h1]
    decide

theorem objTail_head_guard (ms : List (List Char × Json)) (rest : List Char) :
    ∀ c cs, printObjTail ms ++ ('\x7d' :: rest) = c :: cs → numStop c = true := by
  intro c cs h
  cases ms with
  | nil =>
    rw [show printObjTail [] = [] from rfl, List.nil_append] at h
    injection h with h1 _
    rw [← h1]
    decide
  | cons m ms =>
    rw [show printObjTail (m :: ms) = ',' :: ' ' :: (printMember m ++ printObjTail ms) from rfl,
      List.cons_append] at h
    injection h with h1 _
    rw [← h1]
    decide

theorem parseVal_num (f : ℕ) (n : ℤ) (rest : List Char)
    (hrest : ∀ c cs, rest = c :: cs → numStop c = true) :
    parseVal (f + 1) (intChars n ++ rest) = some (.num n, rest) := by
  have hIne := natDigits_ne_nil n.natAbs
  have hIlt := natDigits_lt n.natAbs
  have hIlead := natDigits_lead n.natAbs
  by_cases hneg : n < 0
  · rw [intChars, if_pos hneg, natChars_eq, List.cons_append, parseVal]
    rw [skipWs_cons_not_ws '-' _ (by decide)]
    dsimp only
    rw [if_neg (by decide), if_neg (by decide), if_neg (by decide), if_neg (by decide),
        if_neg (by decide), if_neg (by decide), if_pos rfl]
    rw [scanNumber_int true (natDigits n.natAbs) rest hIne hIlt hIlead hrest]
    rw [natFromDigits_natDigits]
    rw [show intSign true n.natAbs = n from by rw [intSign, if_pos rfl]; omega]
  · obtain ⟨x, t, hxt⟩ : ∃ x t, natDigits n.natAbs = x :: t := by
      cases h : natDigits n.natAbs with
      | nil => exact absurd h hIne
      | cons x t => exact ⟨x, t, rfl⟩
    have hx : x < 10 := hIlt x (by rw [hxt]; exact List.mem_cons_self x t)
    have hprops := digitChar_props x hx
    have hf := isDigit_char_facts (Nat.digitChar x) hprops.1
    rw [intChars, if_neg hneg, natChars_eq, hxt, List.map_cons, List.cons_append, parseVal]
    rw [skipWs_cons_not_ws _ _ hf.1]
    dsimp only
    rw [if_neg hf.2.1, if_neg hf.2.2.1, if_neg hf.2.2.2.1, if_neg hf.2.2.2.2.1,
        if_neg hf.2.2.2.2.2.1, if_neg hf.2.2.2.2.2.2.1, if_neg hf.2.2.2.2.2.2.2.1,
        if_pos hprops.1]
    rw [show Nat.digitChar x :: (t.map Nat.digitChar ++ rest)
        = (x :: t).map Nat.digitChar ++ rest from rfl]
    rw [← hxt]
    rw [scanNumber_int false (natDigits n.natAbs) rest hIne hIlt hIlead hrest]
    rw [natFromDigits_natDigits]
    rw [show intSign false n.natAbs = n from by rw [intSign, if_neg (by decide)]; omega]

theorem parseVal_fnum (f : ℕ) (m : ℤ) (d : ℕ) (rest : List Char)
    (hrest : ∀ c cs, rest = c :: cs → numStop c = true) :
    parseVal (f + 1) (floatChars m d ++ rest) = some (.fnum m d, rest) := by
  have hIne := fnumInt_ne m.natAbs d
  have hIlt := fnumInt_lt m.natAbs d
  have hIlead := fnumInt_lead m.natAbs d
  have hFne := fnumFrac_ne m.natAbs d
  have hFlt := fnumFrac_lt m.natAbs d
  have hmk : mkFloat (decide (m < 0)) (fnumInt m.natAbs d) (fnumFrac m.natAbs d) none
      = .fnum m d := by
    unfold mkFloat
    rw [show (none : Option ℤ).getD 0 = 0 from rfl]
    rw [fnumInt_append_frac, fnumDigits_val, fnumFrac_len]
    rw [if_pos (by push_cast; omega)]
    have h1 : ((((d : ℤ) + 1)) - 0 - 1).toNat = d := by omega
    have h2 : intSign (decide (m < 0)) m.natAbs = m := by
      by_cases hm : m < 0
      · rw [intSign, if_pos (by simpa using hm)]
        omega
      · rw [intSign, if_neg (by simpa using hm)]
        omega
    rw [show (((d : ℕ) + 1 : ℕ) : ℤ) = (d : ℤ) + 1 from by push_cast; ring, h1, h2]
  by_cases hm : m < 0
  · have hshape : floatChars m d ++ rest
        = '-' :: ((fnumInt m.natAbs d).map Nat.digitChar
            ++ ('.' :: ((fnumFrac m.natAbs d).map Nat.digitChar ++ rest))) := by
      rw [floatChars_eq, if_pos hm]
      simp [List.append_assoc]
    rw [hshape, parseVal]
    rw [skipWs_cons_not_ws '-' _ (by decide)]
    dsimp only
    rw [if_neg (by decide), if_neg (by decide), if_neg (by decide), if_neg (by decide),
        if_neg (by decide), if_neg (by decide), if_pos rfl]
    rw [scanNumber_float true (fnumInt m.natAbs d) (fnumFrac m.natAbs d) rest
        hIne hIlt hIlead hFne hFlt hrest]
    rw [show (true : Bool) = decide (m < 0) from by simp [hm], hmk]
  · obtain ⟨x, t, hxt⟩ : ∃ x t, fnumInt m.natAbs d = x :: t := by
      cases h : fnumInt m.natAbs d with
      | nil => exact absurd h hIne
      | cons x t => exact ⟨x, t, rfl⟩
    have hx : x < 10 := hIlt x (by rw [hxt]; exact List.mem_cons_self x t)
    have hprops := digitChar_props x hx
    have hf := isDigit_char_facts (Nat.digitChar x) hprops.1
    have hshape : floatChars m d ++ rest
        = Nat.digitChar x :: (t.map Nat.digitChar
            ++ ('.' :: ((fnumFrac m.natAbs d).map Nat.digitChar ++ rest))) := by
      rw [floatChars_eq, if_neg hm, hxt, List.map_cons]
      simp [List.append_assoc]
    rw [hshape, parseVal]
    rw [skipWs_cons_not_ws _ _ hf.1]
    dsimp only
    rw [if_neg hf.2.1, if_neg hf.2.2.1, if_neg hf.2.2.2.1, if_neg hf.2.2.2.2.1,
        if_neg hf.2.2.2.2.2.1, if_neg hf.2.2.2.2.2.2.1, if_neg hf.2.2.2.2.2.2.2.1,
        if_pos hprops.1]
    rw [show Nat.digitChar x :: (t.map Nat.digitChar
          ++ ('.' :: ((fnumFrac m.natAbs d).map Nat.digitChar ++ rest)))
        = (x :: t).map Nat.digitChar
          ++ ('.' :: ((fnumFrac m.natAbs d).map Nat.digitChar ++ rest)) from rfl]
    rw [← hxt]
    rw [scanNumber_float false (fnumInt m.natAbs d) (fnumFrac m.natAbs d) rest
        hIne hIlt hIlead hFne hFlt hrest]
    rw [show (false : Bool) = decide (m < 0) from by simp [hm], hmk]

theorem parseMember_ws_cons (fuel : ℕ) (c : Char) (X : List Char)
    (hf : 1 ≤ fuel) (hws : json_ws c = true) :
    parseMember fuel (c :: X) = parseMember fuel X := by
  cases fuel with
  | zero => omega
  | succ f =>
    rw [parseMember, parseMember]
    rw [show skipWs (c :: X) = skipWs X from by rw [skipWs, hws]; simp]

theorem roundtrip_all : ∀ fuel : ℕ,
    (∀ (j : Json) (rest : List Char), jsize j ≤ fuel →
        (∀ c cs, rest = c :: cs → numStop c = true) →
        parseVal fuel (printJson j ++ rest) = some (j, rest))
    ∧ (∀ (es : List Json) (rest : List Char), jsizeList es + 1 ≤ fuel →
        parseArrTail fuel (printArrTail es ++ (']' :: rest)) = some (es, rest))
    ∧ (∀ (ms : List (List Char × Json)) (rest : List Char), jsizeMembers ms + 1 ≤ fuel →
        parseObjTail fuel (printObjTail ms ++ ('\x7d' :: rest)) = some (ms, rest))
    ∧ (∀ (k : List Char) (v : Json) (rest : List Char), jsize v + 1 ≤ fuel →
        (∀ c cs, rest = c :: cs → numStop c = true) →
        parseMember fuel (printMember (k, v) ++ rest) = some ((k, v), rest)) := by
  intro fuel
  induction fuel with
  | zero =>
    refine ⟨?_, ?_, ?_, ?_⟩
    · intro j rest hsize _
      exact absurd hsize (by have := jsize_pos j; omega)
    · intro es rest hsize
      omega
    · intro ms rest hsize
      omega
    · intro k v rest hsize _
      omega
  | succ f ih =>
    obtain ⟨ihV, ihA, ihO, ihM⟩ := ih
    refine ⟨?_, ?_, ?_, ?_⟩
    · intro j rest hsize hrest
      cases j with
      | null => rfl
      | bool b =>
        cases b with
        | true => rfl
        | false => rfl
      | num n => exact parseVal_num f n rest hrest
      | fnum m d => exact parseVal_fnum f m d rest hrest
      | str s =>
        have hshape : printJson (.str s) ++ rest
            = '"' :: (escape_string s ++ ('"' :: rest)) := by
          rw [show printJson (.str s) = '"' :: (escape_string s ++ ['"']) from rfl]
          simp [List.append_assoc]
        rw [hshape, parseVal]
        rw [skipWs_cons_not_ws '"' _ (by decide)]
        dsimp only
        rw [if_neg (by decide), if_neg (by decide), if_neg (by decide), if_pos rfl]
        rw [parseStringBody_escape]
      | arr es =>
        cases es with
        | nil => rfl
        | cons e es =>
          obtain ⟨c1, cs1, hc1, hnw, hne1, _⟩ := printJson_head e
          have hsz : jsize (Json.arr (e :: es)) = 1 + (1 + jsize e + jsizeList es) := by
            simp [jsize, jsizeList]
          have hpos := jsize_pos e
          have hsize1 : jsize e ≤ f := by omega
          have hsize2 : jsizeList es + 1 ≤ f := by omega
          have hshape : printJson (.arr (e :: es)) ++ rest
              = '[' :: (printJson e ++ (printArrTail es ++ (']' :: rest))) := by
            rw [show printJson (.arr (e :: es))
                = '[' :: (printJson e ++ printArrTail es ++ [']']) from rfl]
            simp [List.append_assoc]
          rw [hshape, parseVal]
          rw [skipWs_cons_not_ws '[' _ (by decide)]
          dsimp only
          rw [if_neg (by decide), if_neg (by decide), if_neg (by decide), if_neg (by decide),
              if_pos rfl]
          rw [hc1, List.cons_append]
          rw [skipWs_cons_not_ws c1 _ hnw]
          dsimp only
          rw [if_neg hne1]
          rw [← List.cons_append, ← hc1]
          rw [ihV e _ hsize1 (arrTail_head_guard es rest)]
          dsimp only
          rw [ihA es rest hsize2]
      | obj ms =>
        cases ms with
        | nil => rfl
        | cons m ms =>
          obtain ⟨k, v⟩ := m
          have hsz : jsize (Json.obj ((k, v) :: ms))
              = 1 + (1 + jsize v + jsizeMembers ms) := by
            simp [jsize, jsizeMembers]
          have hpos := jsize_pos v
          have hsize1 : jsize v + 1 ≤ f := by omega
          have hsize2 : jsizeMembers ms + 1 ≤ f := by omega
          have hshape : printJson (.obj ((k, v) :: ms)) ++ rest
              = '\x7b' :: (printMember (k, v) ++ (printObjTail ms ++ ('\x7d' :: rest))) := by
            rw [show printJson (.obj ((k, v) :: ms))
                = '\x7b' :: (printMember (k, v) ++ printObjTail ms ++ ['\x7d']) from rfl]
            simp [List.append_assoc]
          rw [hshape, parseVal]
          rw [skipWs_cons_not_ws '\x7b' _ (by decide)]
          dsimp only
          rw [if_neg (by decide), if_neg (by decide), if_neg (by decide), if_neg (by decide),
              if_neg (by decide), if_pos rfl]
          rw [show printMember (k, v)
              = '"' :: (escape_string k ++ ['"', ':', ' '] ++ printJson v) from rfl]
          rw [List.cons_append]
          rw [skipWs_cons_not_ws '"' _ (by decide)]
          dsimp only
          rw [if_neg (by decide)]
          rw [← List.cons_append]
          rw [show ('"' :: (escape_string k ++ ['"', ':', ' '] ++ printJson v))
              = printMember (k, v) from rfl]
          rw [ihM k v _ hsize1 (objTail_head_guard ms rest)]
          dsimp only
          rw [ihO ms rest hsize2]
    · intro es rest hsize
      cases es with
      | nil => rfl
      | cons e es =>
        have hsz : jsizeList (e :: es) = 1 + jsize e + jsizeList es := by
          simp [jsizeList]
        have hpos := jsize_pos e
        have hsize1 : jsize e ≤ f := by omega
        have hsize2 : jsizeList es + 1 ≤ f := by omega
        have hf1 : 1 ≤ f := by omega
        have hshape : printArrTail (e :: es) ++ (']' :: rest)
            = ',' :: ' ' :: (printJson e ++ (printArrTail es ++ (']' :: rest))) := by
          rw [show printArrTail (e :: es)
              = ',' :: ' ' :: (printJson e ++ printArrTail es) from rfl]
          simp [List.append_assoc]
        rw [hshape, parseArrTail]
        rw [skipWs_cons_not_ws ',' _ (by decide)]
        dsimp only
        rw [if_neg (by decide), if_pos rfl]
        rw [parseVal_ws_cons f ' ' _ hf1 (by decide)]
        rw [ihV e _ hsize1 (arrTail_head_guard es rest)]
        dsimp only
        rw [ihA es rest hsize2]
    · intro ms rest hsize
      cases ms with
      | nil => rfl
      | cons m ms =>
        obtain ⟨k, v⟩ := m
        have hsz : jsizeMembers ((k, v) :: ms) = 1 + jsize v + jsizeMembers ms := by
          simp [jsizeMembers]
        have hpos := jsize_pos v
        have hsize1 : jsize v + 1 ≤ f := by omega
        have hsize2 : jsizeMembers ms + 1 ≤ f := by omega
        have hf1 : 1 ≤ f := by omega
        have hshape : printObjTail ((k, v) :: ms) ++ ('\x7d' :: rest)
            = ',' :: ' ' :: (printMember (k, v) ++ (printObjTail ms ++ ('\x7d' :: rest))) := by
          rw [show printObjTail ((k, v) :: ms)
              = ',' :: ' ' :: (printMember (k, v) ++ printObjTail ms) from rfl]
          simp [List.append_assoc]
        rw [hshape, parseObjTail]
        rw [skipWs_cons_not_ws ',' _ (by decide)]
        dsimp only
        rw [if_neg (by decide), if_pos rfl]
        rw [parseMember_ws_cons f ' ' _ hf1 (by decide)]
        rw [ihM k v _ hsize1 (objTail_head_guard ms rest)]
        dsimp only
        rw [ihO ms rest hsize2]
    · intro k v rest hsize hrest
      have hpos := jsize_pos v
      have hf1 : 1 ≤ f := by omega
      have hshape : printMember (k, v) ++ rest
          = '"' :: (escape_string k ++ ('"' :: ':' :: ' ' :: (printJson v ++ rest))) := by
        rw [show printMember (k, v)
            = '"' :: (escape_string k ++ ['"', ':', ' '] ++ printJson v) from rfl]
        simp [List.append_assoc]
      rw [hshape, parseMember]
      rw [skipWs_cons_not_ws '"' _ (by decide)]
      dsimp only
      rw [if_pos rfl]
      rw [parseStringBody_escape]
      dsimp only
      rw [skipWs_cons_not_ws ':' _ (by decide)]
      dsimp only
      rw [if_pos rfl]
      rw [parseVal_ws_cons f ' ' _ hf1 (by decide)]
      rw [ihV v rest (by omega) hrest]

mutual
theorem jsize_le_len : ∀ j : Json, jsize j ≤ (printJson j).length
  | .null => by simp [jsize, printJson]
  | .bool true => by simp [jsize, printJson]
  | .bool false => by simp [jsize, printJson]
  | .num n => by
    obtain ⟨c, cs, hc, _⟩ := natChars_head n.natAbs
    simp only [jsize, printJson, intChars]
    by_cases hn : n < 0
    · simp [hn, hc]
    · simp [hn, hc]
  | .fnum m d => by
    simp only [jsize, printJson, floatChars, List.length_append, List.length_cons]
    omega
  | .str s => by simp [jsize, printJson]
  | .arr [] => by simp [jsize, jsizeList, printJson]
  | .arr (e :: es) => by
    have h1 := jsize_le_len e
    have h2 := jsizeList_le_len es
    simp only [jsize, jsizeList, printJson, List.length_cons, List.length_append]
    omega
  | .obj [] => by simp [jsize, jsizeMembers, printJson]
  | .obj (m :: ms) => by
    have h1 := jsizeMember_le_len m
    have h2 := jsizeMembers_le_len ms
    simp only [jsize, jsizeMembers, printJson, List.length_cons, List.length_append]
    omega

theorem jsizeMember_le_len : ∀ m : List Char × Json, 1 + jsize m.2 ≤ (printMember m).length
  | (k, v) => by
    have h1 := jsize_le_len v
    simp only [printMember, List.length_cons, List.length_append]
    omega

theorem jsizeList_le_len : ∀ es : List Json, jsizeList es ≤ (printArrTail es).length
  | [] => by simp [jsizeList, printArrTail]
  | e :: es => by
    have h1 := jsize_le_len e
    have h2 := jsizeList_le_len es
    simp only [jsizeList, printArrTail, List.length_cons, List.length_append]
    omega

theorem jsizeMembers_le_len : ∀ ms : List (List Char × Json),
    jsizeMembers ms ≤ (printObjTail ms).length
  | [] => by simp [jsizeMembers, printObjTail]
  | m :: ms => by
    have h1 := jsizeMember_le_len m
    have h2 := jsizeMembers_le_len ms
    simp only [jsizeMembers, printObjTail, List.length_cons, List.length_append]
    omega
end

theorem json_loads_dumps (j : Json) : json_loads (json_dumps j) = some j := by
  rw [json_dumps, json_loads]
  have hsize : jsize j ≤ (printJson j).length + 1 := by
    have := jsize_le_len j
    omega
  have h := (roundtrip_all ((printJson j).length + 1)).1 j [] hsize
    (by intro c cs hcc; cases hcc)
  rw [List.append_nil] at h
  rw [h]
  rfl

/-- The `upsert` on the `system_settings` table used by `update_live_cart`:
replace the value when the key exists, otherwise insert the pair. -/
def settings_upsert (settings : List (String × List Char)) (key : String) (value : List Char) :
    List (String × List Char) :=
  if settings.any (fun kv => kv.1 == key) then
    settings.map (fun kv => if kv.1 == key then (key, value) else kv)
  else settings ++ [(key, value)]

/-- `update_live_cart` from `src/backend.py`: serialize the snapshot and
upsert it under `live_cart_data`, overwriting any previous snapshot. -/
def update_live_cart (db : DB) (cart_data : Json) : DB × Bool :=
  ({ db with settings := settings_upsert db.settings "live_cart_data" (json_dumps cart_data) },
   true)

/-- `get_live_cart` from `src/backend.py`: read the `live_cart_data` value;
`none` when the row is missing or empty or fails to parse, otherwise the
parsed snapshot. -/
def get_live_cart (db : DB) : Option Json :=
  match (db.settings.find? (fun kv => kv.1 == "live_cart_data")).map (fun kv => kv.2) with
  | none => none
  | some val => if val.isEmpty then none else json_loads val

theorem settings_upsert_find (settings : List (String × List Char)) (key : String)
    (value : List Char) :
    (((settings_upsert settings key value).find? (fun kv => kv.1 == key)).map
        (fun kv => kv.2)) = some value := by
  unfold settings_upsert
  by_cases h : settings.any (fun kv => kv.1 == key) = true
  · rw [if_pos h]
    induction settings with
    | nil => simp at h
    | cons a t ih =>
      by_cases ha : (a.1 == key) = true
      · rw [List.map_cons, if_pos ha, List.find?_cons]
        rw [show ((key, value).1 == key) = true from by simp]
        rfl
      · rw [List.map_cons, if_neg ha, List.find?_cons]
        rw [show (a.1 == key) = false from by simpa using ha]
        rw [List.any_cons] at h
        simp only [ha, Bool.false_or] at h
        exact ih h
  · rw [if_neg h]
    induction settings with
    | nil =>
      rw [List.nil_append, List.find?_cons]
      rw [show ((key, value).1 == key) = true from by simp]
      rfl
    | cons a t ih =>
      rw [List.any_cons] at h
      have ha : (a.1 == key) = false := by
        cases hx : (a.1 == key) with
        | true => exact absurd (by rw [hx]; rfl) h
        | false => rfl
      have ht : ¬ t.any (fun kv => kv.1 == key) = true := by
        intro hx
        exact h (by rw [hx, Bool.or_true])
      rw [List.cons_append, List.find?_cons, ha]
      exact ih ht

theorem json_dumps_ne_empty (j : Json) : (json_dumps j).isEmpty = false := by
  obtain ⟨c, cs, hc, _⟩ := printJson_head j
  rw [json_dumps, hc]
  rfl

/-- C10: publishing a snapshot with `update_live_cart` and then reading with
`get_live_cart` (with no intervening publish) returns the very snapshot that
was published: the serialize-then-parse round trip through the settings
store is the identity on JSON-serializable snapshots. -/
theorem claim_C10_live_cart_roundtrip (db : DB) (cart : Json) :
    get_live_cart (update_live_cart db cart).1 = some cart := by
  unfold get_live_cart update_live_cart
  dsimp only
  rw [settings_upsert_find]
  dsimp only
  rw [json_dumps_ne_empty]
  simp only [Bool.false_eq_true, if_false]
  exact json_loads_dumps cart
